import Mathlib

/-!
Verification of the helm-app-operator-kit repository against its
natural-language specification.

The development shallowly embeds the Go source of the repository:
pure functions become Lean functions, stateful code threads explicit
state (the release storage backend, the cluster copy of the custom
resource), and calls into external collaborator libraries (the Helm
chartutil YAML codec, the tiller release server, the Kubernetes
apimachinery converters) are either parameters of the embedded
functions or definitions modelled from the specification's interface
contracts (each such definition says so in its doc comment).
-/

/-! ## Small string utilities used throughout the Go source -/

/-- Embeds Go `strings.Contains` (used by `notFoundErr` in
`release/manager.go`): substring test on the character lists. -/
def containsSubstr (hay needle : String) : Bool :=
  decide (List.IsInfix needle.toList hay.toList)

/-- Embeds `notFoundErr` from `release/manager.go`: an error is a
not-found error when its message contains the substring "not found". -/
def notFoundErr (errMsg : String) : Bool :=
  containsSubstr errMsg "not found"

/-- Embeds Go `strings.HasSuffix` (used by `OwnerRefEngine.Render` to
select ".yaml" files): suffix test on the character lists. -/
def strEndsWith (s suffix : String) : Bool :=
  decide (List.IsSuffix suffix.toList s.toList)

/-- Embeds `strings.Replace(uid, "-", "", -1)` from `shortenUID`. -/
def stripDashes (s : String) : String :=
  String.mk (s.toList.filter (fun c => c ≠ '-'))

/-! ## Release naming (`release/manager.go`, `getReleaseName` / `shortenUID`) -/

/-- Digit characters for base-36, uppercase, as produced by the
external base36 library before the operator lowercases the result. -/
def base36DigitChar (d : Nat) : Char :=
  if d < 10 then Char.ofNat (48 + d) else Char.ofNat (55 + d)

/-- Accumulates the base-36 digits of `n`, most significant first. -/
def base36DigitsAux (n : Nat) (acc : List Char) : List Char :=
  if h : n = 0 then acc
  else base36DigitsAux (n / 36) (base36DigitChar (n % 36) :: acc)
termination_by n
decreasing_by
  exact Nat.div_lt_self (Nat.pos_of_ne_zero h) (by norm_num)

/-- Modelled from the spec: the external `martinlindhe/base36` library's
big-integer text rendering; zero renders as "0", uppercase digits. -/
def natToBase36 (n : Nat) : String :=
  if n = 0 then "0" else String.mk (base36DigitsAux n [])

/-- The 16 UID bytes interpreted as a big-endian integer
(`big.Int.SetBytes` in the external base36 library). -/
def bytesToNat (bs : List Nat) : Nat :=
  bs.foldl (fun acc b => acc * 256 + b) 0

/-- Modelled from the spec: `base36.EncodeBytes` of the external
base36 library — base-36 text of the bytes read as a big integer. -/
def base36EncodeBytes (bs : List Nat) : String :=
  natToBase36 (bytesToNat bs)

/-- Modelled from the spec: the external `pborman/uuid` method
`UUID.MarshalBinary`, which returns the underlying byte slice (empty
for the nil UUID produced by a failed parse) and never an error. -/
def marshalBinary (u : Option (List Nat)) : List Nat × Option String :=
  (u.getD [], none)

/-- ASCII lowercase of one character, the relevant fragment of Go
`strings.ToLower` (the base-36 alphabet is ASCII). -/
def asciiToLower (c : Char) : Char :=
  if 65 ≤ c.toNat ∧ c.toNat ≤ 90 then Char.ofNat (c.toNat + 32) else c

/-- ASCII lowercase of a string (Go `strings.ToLower` on the base-36
alphabet). -/
def toLowerAscii (s : String) : String :=
  String.mk (s.toList.map asciiToLower)

/-- Embeds `shortenUID` from `release/manager.go`. `uuidParse` stands
for the external `uuid.Parse`, returning the 16 UID bytes or `none` on
parse failure. Note the faithful translation of the Go control flow:
the named return value assigned in the error branch is unconditionally
overwritten by the final assignment before `return`. -/
def shortenUID (uuidParse : String → Option (List Nat)) (uid : String) : String :=
  let u := uuidParse uid
  let p := marshalBinary u
  let uidBytes := p.1
  let err := p.2
  let shortUID := if err.isSome then stripDashes uid else ""
  let shortUID := toLowerAscii (base36EncodeBytes uidBytes)
  shortUID

/-- Embeds `getReleaseName` from `release/manager.go`:
`fmt.Sprintf("%s-%s", r.GetName(), shortenUID(r.GetUID()))`. -/
def getReleaseNameOf (uuidParse : String → Option (List Nat))
    (name uid : String) : String :=
  name ++ "-" ++ shortenUID uuidParse uid

/-! ## Owner-reference data model for the rendering engine -/

/-- An owner reference as built by the external
`metav1.NewControllerRef`: the CR's coordinates with
`Controller = BlockOwnerDeletion = true`. -/
structure OwnerRef where
  apiVersion : String
  kind : String
  name : String
  uid : String
  controller : Bool
  blockOwnerDeletion : Bool
deriving DecidableEq, Repr

/-- Modelled from the spec: the external `metav1.NewControllerRef`
applied to the custom resource's coordinates. -/
def newControllerRef (apiVersion kind name uid : String) : OwnerRef :=
  ⟨apiVersion, kind, name, uid, true, true⟩

/-- A parsed YAML value as the owner-injecting engine sees it: a
scalar, a nested mapping, or an owner-reference list (the only array
the engine manipulates structurally). -/
inductive Yaml where
  | scalar (s : String)
  | obj (fields : List (String × Yaml))
  | ownerRefList (refs : List OwnerRef)

/-- A parsed document: `chartutil.FromYaml` yields a string-keyed map,
or a map carrying an "Error" key on parse failure. -/
inductive ParseResult where
  | err (msg : String)
  | ok (doc : List (String × Yaml))

/-- The external YAML codec (`chartutil.FromYaml` / `chartutil.ToYaml`),
passed to the engine embedding as a capability. -/
structure Codec where
  fromYaml : String → ParseResult
  toYaml : List (String × Yaml) → String

/-- First binding under key `k` in a parsed mapping. -/
def lookupField : List (String × Yaml) → String → Option Yaml
  | [], _ => none
  | (k1, v1) :: t, k => if k1 = k then some v1 else lookupField t k

/-- Replace the value under key `k`, or append the binding if the key
is absent (the map-write semantics of the external unstructured
converter). -/
def setField (m : List (String × Yaml)) (k : String) (v : Yaml) :
    List (String × Yaml) :=
  if m.any (fun kv => kv.1 = k) then
    m.map (fun kv => if kv.1 = k then (k, v) else kv)
  else m ++ [(k, v)]

/-- Modelled from the spec: the external apimachinery call
`unstructured.SetOwnerReferences`, per spec §4.2 — "set the top-level
`metadata.ownerReferences` to `[ownerRef]` (replacing any present)".
The metadata mapping is created when absent. -/
def setOwnerReferences (doc : List (String × Yaml)) (refs : List OwnerRef) :
    List (String × Yaml) :=
  let md := match lookupField doc "metadata" with
    | some (Yaml.obj m) => m
    | _ => []
  setField doc "metadata"
    (Yaml.obj (setField md "ownerReferences" (Yaml.ownerRefList refs)))

/-- Reads back the top-level `metadata.ownerReferences` of a parsed
document (used to state the owner-injection invariant). -/
def getOwnerRefs (doc : List (String × Yaml)) : Option Yaml :=
  match lookupField doc "metadata" with
  | some (Yaml.obj md) => lookupField md "ownerReferences"
  | _ => none

/-- Embeds `OwnerRefEngine.addOwnerRefs` from `engine/ownerref.go`:
parse the file, fail on a structured parse error, signal an empty
document with "", otherwise inject the owner references and
re-serialize. -/
def addOwnerRefs (c : Codec) (refs : List OwnerRef) (fileContents : String) :
    Except String String :=
  match c.fromYaml fileContents with
  | ParseResult.err e =>
      Except.error ("error parsing rendered template to add ownerrefs: " ++ e)
  | ParseResult.ok parsed =>
      if parsed.isEmpty then Except.ok ""
      else Except.ok (c.toYaml (setOwnerReferences parsed refs))

/-- Embeds the loop body of `OwnerRefEngine.Render` from
`engine/ownerref.go`: files whose name does not end in ".yaml" are
skipped; ".yaml" files go through `addOwnerRefs`, an error aborts the
whole render, and an empty result drops the file. -/
def renderLoop (c : Codec) (refs : List OwnerRef) :
    List (String × String) → Except String (List (String × String))
  | [] => Except.ok []
  | (fileName, renderedFile) :: rest =>
    if strEndsWith fileName ".yaml" then
      match addOwnerRefs c refs renderedFile with
      | Except.error e => Except.error e
      | Except.ok withOwner =>
          if withOwner = "" then renderLoop c refs rest
          else
            match renderLoop c refs rest with
            | Except.error e => Except.error e
            | Except.ok out => Except.ok ((fileName, withOwner) :: out)
    else renderLoop c refs rest

/-- Embeds `OwnerRefEngine.Render` from `engine/ownerref.go`, applied
to the map already produced by the wrapped base engine (the base
engine itself is an external collaborator). -/
def ownerRefEngineRender (c : Codec) (refs : List OwnerRef)
    (rendered : List (String × String)) :
    Except String (List (String × String)) :=
  renderLoop c refs rendered

/-! ## Watch configuration loader (`release/new.go`) -/

/-- Group/version pair as produced by the external
`schema.ParseGroupVersion`. -/
structure GroupVersion where
  group : String
  version : String
deriving DecidableEq, Repr

/-- Group/version/kind triple keying a watch entry. -/
structure GroupVersionKind where
  group : String
  version : String
  kind : String
deriving DecidableEq, Repr

/-- The process environment: `os.LookupEnv` (distinguishing unset from
empty) together with `os.Stat`-based file existence. -/
structure ProcEnv where
  lookupEnv : String → Option String
  fileExists : String → Bool

/-- Embeds Go `os.Getenv`: the variable's value, or "" when unset. -/
def getenv (e : ProcEnv) (k : String) : String :=
  (e.lookupEnv k).getD ""

/-- Embeds the `defaultHelmChartWatchesFile` constant of
`release/new.go`. -/
def defaultHelmChartWatchesFile : String := "/opt/helm/watches.yaml"

/-- Embeds `getWatchesFile` from `release/new.go`: an explicitly set
`HELM_CHART_WATCHES` (even empty) wins; otherwise the default path is
used when it exists; otherwise no file. -/
def getWatchesFile (e : ProcEnv) : Option String :=
  match e.lookupEnv "HELM_CHART_WATCHES" with
  | some watchesFile => some watchesFile
  | none =>
      if e.fileExists defaultHelmChartWatchesFile then
        some defaultHelmChartWatchesFile
      else none

/-- Embeds `verifyGVK` from `release/new.go`: version and kind must be
non-empty; an empty group is valid. -/
def verifyGVK (gvk : GroupVersionKind) : Option String :=
  if gvk.version = "" then some "version must not be empty"
  else if gvk.kind = "" then some "kind must not be empty"
  else none

/-- External capabilities consumed by the watch-config loader:
`schema.ParseGroupVersion`, `chartutil.IsChartDir`, and the file-based
loader `NewManagersFromFile` (whose YAML reading is I/O). -/
structure LoaderOps where
  parseGroupVersion : String → Except String GroupVersion
  isChartDir : String → Bool
  fromFile : String → Except String (List (GroupVersionKind × String))

/-- Embeds `newManagerFromEnv` from `release/new.go`: build a
single-entry configuration from `API_VERSION`, `KIND` and `HELM_CHART`. -/
def newManagerFromEnv (ops : LoaderOps) (e : ProcEnv) :
    Except String (GroupVersionKind × String) :=
  let apiVersion := getenv e "API_VERSION"
  let kind := getenv e "KIND"
  let chartDir := getenv e "HELM_CHART"
  match ops.parseGroupVersion apiVersion with
  | Except.error err => Except.error err
  | Except.ok gv =>
      let gvk : GroupVersionKind := ⟨gv.group, gv.version, kind⟩
      match verifyGVK gvk with
      | some msg => Except.error ("invalid GVK: " ++ msg)
      | none =>
          if ops.isChartDir chartDir then Except.ok (gvk, chartDir)
          else Except.error ("invalid chart directory " ++ chartDir)

/-- Embeds `NewManagersFromEnv` from `release/new.go`: a watches file,
when resolved, is authoritative; otherwise fall back to the
single-entry environment configuration. -/
def NewManagersFromEnv (ops : LoaderOps) (e : ProcEnv) :
    Except String (List (GroupVersionKind × String)) :=
  match getWatchesFile e with
  | some watchesFile => ops.fromFile watchesFile
  | none =>
      match newManagerFromEnv ops e with
      | Except.error err => Except.error err
      | Except.ok entry => Except.ok [entry]

/-! ## Status type and `StatusFor` (`apis/app/v1alpha1/types.go`) -/

/-- Release status codes stored by the backend (spec §3). -/
inductive StatusCode where
  | unknown
  | deployed
  | superseded
  | failed
  | deleting
  | deleted
deriving DecidableEq, Repr

/-- The phase of a custom resource's status (`ResourcePhase`). -/
inductive ResourcePhase where
  | noPhase
  | applying
  | applied
  | failed
deriving DecidableEq, Repr

/-- The reason of a custom resource's status (`ConditionReason`). -/
inductive ConditionReason where
  | unknown
  | customResourceAdded
  | customResourceUpdated
  | applySuccessful
  | applyFailed
deriving DecidableEq, Repr

/-- A release record persisted by the storage backend (spec §3):
name, version, status code, rendered manifest and notes. -/
structure Release where
  name : String
  version : Nat
  code : StatusCode
  manifest : String
  notes : String
deriving DecidableEq, Repr

/-- The operator-owned status block (`HelmAppStatus`); the two
timestamp fields are real-time data and are not modelled. -/
structure HelmAppStatus where
  release : Option Release
  phase : ResourcePhase
  reason : ConditionReason
  message : String
deriving DecidableEq, Repr

/-- Embeds `HelmAppStatus.SetPhase` from `types.go` (timestamps
omitted): update phase, reason and message. -/
def setPhase (s : HelmAppStatus) (phase : ResourcePhase)
    (reason : ConditionReason) (message : String) : HelmAppStatus :=
  { s with phase := phase, reason := reason, message := message }

/-- Embeds `HelmAppStatus.SetRelease` from `types.go`. -/
def setRelease (s : HelmAppStatus) (rel : Option Release) : HelmAppStatus :=
  { s with release := rel }

/-- The dynamic Go value found under the CR's "status" key, by dynamic
type: a `HelmAppStatus` value, a `*HelmAppStatus` pointer, a
`map[string]interface` mapping, a missing key (nil interface), or any
other dynamic type. -/
inductive DynStatus where
  | helmAppStatus (s : HelmAppStatus)
  | ptrHelmAppStatus (s : HelmAppStatus)
  | strMap (m : List (String × Yaml))
  | absent
  | otherDyn (tag : String)

/-- Outcome of running a Go function that may panic. -/
inductive GoResult (α : Type) where
  | ok (a : α)
  | panicked (msg : String)
deriving DecidableEq, Repr

/-- Embeds `StatusFor` from `apis/app/v1alpha1/types.go`. `conv`
stands for the external `runtime.DefaultUnstructuredConverter`
conversion to a `HelmAppStatus`. The first case is the faithful
translation of `case HelmAppStatus: return cr.Object["status"].(*HelmAppStatus)`:
a value whose dynamic type is `HelmAppStatus` enters the case and the
type assertion to the pointer type `*HelmAppStatus` panics. -/
def StatusFor (conv : List (String × Yaml) → Except String HelmAppStatus)
    (status : DynStatus) : GoResult HelmAppStatus :=
  match status with
  | DynStatus.helmAppStatus _ =>
      GoResult.panicked
        "interface conversion: interface is v1alpha1.HelmAppStatus, not *v1alpha1.HelmAppStatus"
  | DynStatus.strMap m =>
      match conv m with
      | Except.error e =>
          GoResult.ok
            ⟨none, ResourcePhase.failed, ConditionReason.applyFailed, e⟩
      | Except.ok s => GoResult.ok s
  | _ => GoResult.ok ⟨none, ResourcePhase.noPhase, ConditionReason.unknown, ""⟩

/-! ## Release storage backend (spec §6, external interface)

The operator's `main` wires `storage.Init(driver.NewMemory())`; the
backend is an external collaborator whose interface the spec fixes in
§6: `History`, `Deployed`, `Get`, `Create`, `Delete`, keyed by release
name and version. It is modelled here as an in-memory list of release
records, plus an injectable table of delete failures so that the error
paths of the source are reachable in the model. -/

structure Backend where
  rels : List Release
  deleteFaults : List (String × Nat × String)
deriving DecidableEq, Repr

/-- Modelled from the spec: `History(name)` returns the stored release
versions under `name` (possibly the empty list). -/
def history (b : Backend) (name : String) : List Release :=
  b.rels.filter (fun r => r.name == name)

/-- Modelled from the spec: `Get(name, version)` returns the stored
record or a not-found error. -/
def storageGet (b : Backend) (name : String) (version : Nat) :
    Except String Release :=
  match b.rels.find? (fun r => r.name == name && r.version == version) with
  | some r => Except.ok r
  | none => Except.error "release: not found"

/-- Modelled from the spec: `Create(rel)` stores a new record,
failing when the key is already present. -/
def storageCreate (b : Backend) (r : Release) : Except String Backend :=
  if b.rels.any (fun x => x.name == r.name && x.version == r.version) then
    Except.error "release: already exists"
  else Except.ok { b with rels := b.rels ++ [r] }

/-- The injected failure, if any, for deleting `(name, version)`. -/
def faultFor (b : Backend) (name : String) (version : Nat) : Option String :=
  (b.deleteFaults.find? (fun f => f.1 == name && f.2.1 == version)).map
    (fun f => f.2.2)

/-- Modelled from the spec: `Delete(name, version)` removes the record
under the key and returns it; deleting an absent key is a not-found
error; an injected fault surfaces as the given error message. -/
def storageDelete (b : Backend) (name : String) (version : Nat) :
    Except String (Release × Backend) :=
  match faultFor b name version with
  | some msg => Except.error msg
  | none =>
      match b.rels.find? (fun r => r.name == name && r.version == version) with
      | some r =>
          Except.ok (r, { b with
            rels := b.rels.filter
              (fun x => !(x.name == name && x.version == version)) })
      | none => Except.error "release: not found"

/-- The release of maximal version among `rs`, if any. -/
def pickMax : List Release → Option Release
  | [] => none
  | r :: rs =>
      match pickMax rs with
      | none => some r
      | some m => if m.version < r.version then some r else some m

/-- Modelled from the spec: `Deployed(name)` returns the deployed
release version under `name`, or fails when none is deployed. -/
def storageDeployed (b : Backend) (name : String) : Option Release :=
  pickMax ((history b name).filter (fun r => r.code == StatusCode.deployed))

/-- Largest version stored under `name` (0 when none), used by the
tiller model to pick the next release version. -/
def maxVersion (b : Backend) (name : String) : Nat :=
  (history b name).foldl (fun acc r => max acc r.version) 0

/-! ## Manager and tiller model (`release/manager.go`) -/

/-- A manager error: the `ErrNotFound` sentinel of `release/manager.go`
or an ordinary error message. -/
inductive MErr where
  | notFound
  | msg (s : String)
deriving DecidableEq, Repr

/-- The custom resource as the reconciler sees it (spec §3): identity,
opaque spec values (already YAML-marshalled), typed status, finalizer
list and deletion flag. -/
structure CR where
  name : String
  uid : String
  nspace : String
  specVals : String
  status : HelmAppStatus
  finalizers : List String
  deleted : Bool
deriving DecidableEq, Repr

/-- External collaborator behavior threaded through the manager: the
deterministic composite rendering (chart + engine, a function of the
CR's marshalled spec), the external UID parser, and injectable
failures for the chart load and each tiller operation. -/
structure REnv where
  render : String → String
  uuidParse : String → Option (List Nat)
  chartErr : Option String
  candidateErr : Option String
  installErr : Option String
  updateErr : Option String
  reconcileErr : Option String
  uninstallErr : Option String

/-- Embeds `getReleaseName` applied to a custom resource. -/
def getReleaseName (env : REnv) (cr : CR) : String :=
  getReleaseNameOf env.uuidParse cr.name cr.uid

/-- Embeds `manager.syncReleaseStatus` from `release/manager.go`: when
`status.Release` is set but absent from the backend, re-create it; a
non-not-found lookup error or a create error surfaces. Returns the
updated backend and the error, if any. -/
def syncReleaseStatus (status : HelmAppStatus) (b : Backend) :
    Backend × Option String :=
  match status.release with
  | none => (b, none)
  | some rel =>
      match storageGet b rel.name rel.version with
      | Except.ok _ => (b, none)
      | Except.error e =>
          if notFoundErr e then
            match storageCreate b rel with
            | Except.ok b' => (b', none)
            | Except.error ce => (b, some ce)
          else (b, some e)

/-- Embeds the garbage-collection loop of `manager.Sync`: every
history entry whose status code is not DEPLOYED is deleted; a delete
failure that is not a not-found error aborts with an error. Returns
the updated backend and the error, if any. -/
def gcNonDeployed (b : Backend) : List Release → Backend × Option String
  | [] => (b, none)
  | rel :: rest =>
      if rel.code = StatusCode.deployed then gcNonDeployed b rest
      else
        match storageDelete b rel.name rel.version with
        | Except.ok (_, b') => gcNonDeployed b' rest
        | Except.error e =>
            if notFoundErr e then gcNonDeployed b rest
            else (b, some ("failed to delete stale release version: " ++ e))

/-- Embeds `manager.getDeployedRelease` from `release/manager.go`: the
backend's "has no deployed releases" failure is mapped to the
`ErrNotFound` sentinel. -/
def getDeployedRelease (b : Backend) (name : String) : Except MErr Release :=
  match storageDeployed b name with
  | some r => Except.ok r
  | none => Except.error MErr.notFound

/-- The cached flags and deployed release that `manager.Sync` leaves
behind for `IsInstalled` / `IsUpdateRequired` / the later operations. -/
structure SyncFlags where
  isInstalled : Bool
  isUpdateRequired : Bool
  deployedRelease : Option Release
deriving DecidableEq, Repr

/-- Embeds `manager.Sync` from `release/manager.go`: sync the status
release into the backend, garbage-collect non-deployed history, load
chart and config, look up the deployed release (absence leaves
`isInstalled = false`), and compare the dry-run candidate manifest to
the deployed manifest to decide `isUpdateRequired`. The updated
backend is returned in both the success and the error case, mirroring
the in-place mutation of the real storage backend. -/
def Sync (env : REnv) (cr : CR) (b : Backend) :
    Backend × Except String SyncFlags :=
  match syncReleaseStatus cr.status b with
  | (b1, some e) =>
      (b1, Except.error ("failed to sync release status to storage backend: " ++ e))
  | (b1, none) =>
      let releaseName := getReleaseName env cr
      match gcNonDeployed b1 (history b1 releaseName) with
      | (b2, some e) => (b2, Except.error e)
      | (b2, none) =>
          match env.chartErr with
          | some e => (b2, Except.error ("failed to load chart and config: " ++ e))
          | none =>
              match getDeployedRelease b2 releaseName with
              | Except.error MErr.notFound =>
                  (b2, Except.ok ⟨false, false, none⟩)
              | Except.error (MErr.msg e) =>
                  (b2, Except.error ("failed to get deployed release: " ++ e))
              | Except.ok deployedRelease =>
                  match env.candidateErr with
                  | some e =>
                      (b2, Except.error ("failed to get candidate release: " ++ e))
                  | none =>
                      (b2, Except.ok
                        ⟨true,
                         deployedRelease.manifest != env.render cr.specVals,
                         some deployedRelease⟩)

/-! ## Tiller release operations (spec §4.3, external collaborator) -/

/-- Modelled from the spec: tiller `InstallRelease` — create the next
release version (1 for a fresh name) with status DEPLOYED and the
manifest rendered from the chart and the CR's spec values; an injected
failure leaves no release behind (the source purges a partial install). -/
def tillerInstall (env : REnv) (b : Backend) (name spec : String) :
    Except String (Release × Backend) :=
  match env.installErr with
  | some e => Except.error e
  | none =>
      let rel : Release :=
        ⟨name, maxVersion b name + 1, StatusCode.deployed, env.render spec, ""⟩
      Except.ok (rel, { b with rels := b.rels ++ [rel] })

/-- Mark every deployed record under `name` superseded (the history
rewrite performed by a tiller update). -/
def supersedeDeployed (name : String) (rs : List Release) : List Release :=
  rs.map (fun r =>
    if r.name == name && r.code == StatusCode.deployed then
      { r with code := StatusCode.superseded }
    else r)

/-- Modelled from the spec: tiller `UpdateRelease` — supersede the
deployed versions under `name` and append the next version as DEPLOYED
with the freshly rendered manifest; an injected failure leaves the
history unchanged (the source rolls a partial update back). -/
def tillerUpdate (env : REnv) (b : Backend) (name spec : String) :
    Except String (Release × Backend) :=
  match env.updateErr with
  | some e => Except.error e
  | none =>
      let rel : Release :=
        ⟨name, maxVersion b name + 1, StatusCode.deployed, env.render spec, ""⟩
      let marked := supersedeDeployed name b.rels
      Except.ok (rel, { b with rels := marked ++ [rel] })

/-- Modelled from the spec: tiller `UninstallRelease` with purge —
remove every version under `name` and return the release of maximal
version (the source only reaches this call with non-empty history;
the fallback record is never observed). -/
def tillerUninstall (env : REnv) (b : Backend) (name : String) :
    Except String (Release × Backend) :=
  match env.uninstallErr with
  | some e => Except.error e
  | none =>
      let rel := (pickMax (history b name)).getD
        ⟨name, 0, StatusCode.unknown, "", ""⟩
      Except.ok (rel, { b with rels := b.rels.filter (fun r => !(r.name == name)) })

/-- Embeds `uninstallRelease` from `release/manager.go`: empty history
returns the `ErrNotFound` sentinel; otherwise a purge uninstall is
issued. -/
def UninstallRelease (env : REnv) (b : Backend) (releaseName : String) :
    Except MErr (Release × Backend) :=
  let h := history b releaseName
  if h.isEmpty then Except.error MErr.notFound
  else
    match tillerUninstall env b releaseName with
    | Except.error e => Except.error (MErr.msg e)
    | Except.ok rb => Except.ok rb

/-! ## Reconciler (`controller/reconcile.go`, `HelmOperatorReconciler`) -/

/-- The finalizer sentinel of `controller/reconcile.go`. -/
def finalizerName : String := "uninstall-helm-release"

/-- A release-manager action invoked during one reconcile, recorded as
a trace so invocation counts can be stated. -/
inductive MAction where
  | install
  | update
  | reconcileRel
  | uninstall
deriving DecidableEq, Repr

/-- The observable outcome of one `Reconcile` invocation: the
persisted CR (the cluster's copy), the storage backend, the returned
error, whether a requeue was scheduled, the manager actions invoked,
and the status block persisted by `updateResource`, if any. -/
structure ROut where
  cluster : Option CR
  backend : Backend
  err : Option String
  requeue : Bool
  actions : List MAction
  statusWrite : Option HelmAppStatus
deriving DecidableEq, Repr

/-- Embeds `HelmOperatorReconciler.Reconcile` from
`controller/reconcile.go`. The cluster client is modelled as the
single watched CR (`Get` fails not-found exactly when it is absent;
`Update` persists it). The body follows the source line by line:
not-found lookup returns success; a live CR without the finalizer gets
it appended and persisted; `Sync` errors are fatal; a deleted CR runs
uninstall with `ErrNotFound` treated as success and then drops the
finalizer; otherwise exactly one of install / update / drift-repair
runs, with a status write on install and update only. -/
def Reconcile (env : REnv) (cluster : Option CR) (b : Backend) : ROut :=
  match cluster with
  | none => ⟨none, b, none, false, [], none⟩
  | some o =>
      let deleted := o.deleted
      let pendingFinalizers := o.finalizers
      if !deleted && !(pendingFinalizers.contains finalizerName) then
        let o' := { o with finalizers := pendingFinalizers ++ [finalizerName] }
        ⟨some o', b, none, false, [], none⟩
      else
        let status := o.status
        let releaseName := getReleaseName env o
        match Sync env o b with
        | (b', Except.error e) => ⟨some o, b', some e, false, [], none⟩
        | (b', Except.ok flags) =>
            if deleted then
              if !(pendingFinalizers.contains finalizerName) then
                ⟨some o, b', none, false, [], none⟩
              else
                match UninstallRelease env b' releaseName with
                | Except.error (MErr.msg e) =>
                    ⟨some o, b', some e, false, [MAction.uninstall], none⟩
                | Except.error MErr.notFound =>
                    let o' := { o with finalizers :=
                      pendingFinalizers.filter (fun f => f ≠ finalizerName) }
                    ⟨some o', b', none, false, [MAction.uninstall], none⟩
                | Except.ok (_, b'') =>
                    let o' := { o with finalizers :=
                      pendingFinalizers.filter (fun f => f ≠ finalizerName) }
                    ⟨some o', b'', none, false, [MAction.uninstall], none⟩
            else
              if !flags.isInstalled then
                match tillerInstall env b' releaseName o.specVals with
                | Except.error e =>
                    ⟨some o, b', some e, false, [MAction.install], none⟩
                | Except.ok (installedRelease, b'') =>
                    let status' := setPhase (setRelease status (some installedRelease))
                      ResourcePhase.applied ConditionReason.applySuccessful
                      installedRelease.notes
                    ⟨some { o with status := status' }, b'', none, true,
                      [MAction.install], some status'⟩
              else if flags.isUpdateRequired then
                match tillerUpdate env b' releaseName o.specVals with
                | Except.error e =>
                    ⟨some o, b', some e, false, [MAction.update], none⟩
                | Except.ok (updatedRelease, b'') =>
                    let status' := setPhase (setRelease status (some updatedRelease))
                      ResourcePhase.applied ConditionReason.applySuccessful
                      updatedRelease.notes
                    ⟨some { o with status := status' }, b'', none, true,
                      [MAction.update], some status'⟩
              else
                match env.reconcileErr with
                | some e =>
                    ⟨some o, b', some e, false, [MAction.reconcileRel], none⟩
                | none =>
                    ⟨some o, b', none, true, [MAction.reconcileRel], none⟩

/-! ## Theorems -/

/-- C3 (code evaluated at the failing input): for a UID that the
external UUID parser rejects, `shortenUID` returns "0" — the
lowercased base-36 rendering of the empty byte slice — because the
dash-stripping assignment of the error branch is unconditionally
overwritten before the return; the spec instead prescribes the UID
with dashes stripped ("baduid"), a different string. Consequently
`getReleaseName` yields "t1-0" instead of "t1-baduid". -/
theorem spec_C3_shortenUID_dead_fallback :
    shortenUID (fun _ => none) "bad-uid" = "0" ∧
    stripDashes "bad-uid" = "baduid" ∧
    getReleaseNameOf (fun _ => none) "t1" "bad-uid" = "t1-0" ∧
    ("t1-0" : String) ≠ "t1-baduid" := by
  refine ⟨by decide, by decide, by decide, by decide⟩

/-- C10 (code evaluated at the failing input): a CR whose "status"
field holds a value of dynamic type `HelmAppStatus` makes `StatusFor`
panic on the interface conversion to `*HelmAppStatus`, contradicting
the claim that it is returned as-is without panicking. The two
conjuncts after the first record the behavior on the map case
(conversion failure yields phase Failed / reason ApplyFailed carrying
the error message) and on a missing field (empty status). -/
theorem spec_C10_statusFor_panics :
    StatusFor (fun _ => Except.error "boom")
        (DynStatus.helmAppStatus
          ⟨none, ResourcePhase.noPhase, ConditionReason.unknown, ""⟩) =
      GoResult.panicked
        "interface conversion: interface is v1alpha1.HelmAppStatus, not *v1alpha1.HelmAppStatus" ∧
    StatusFor (fun _ => Except.error "boom") (DynStatus.strMap []) =
      GoResult.ok ⟨none, ResourcePhase.failed, ConditionReason.applyFailed, "boom"⟩ ∧
    StatusFor (fun _ => Except.error "boom") DynStatus.absent =
      GoResult.ok ⟨none, ResourcePhase.noPhase, ConditionReason.unknown, ""⟩ :=
  ⟨rfl, rfl, rfl⟩

/-- C9: `NewManagersFromEnv` resolves the watch configuration in
order: an explicitly set `HELM_CHART_WATCHES` (even empty) designates
the file; otherwise the default path is used when it exists; otherwise
a single-entry configuration is built from `API_VERSION`, `KIND` and
`HELM_CHART`. -/
theorem spec_C9_watch_resolution (ops : LoaderOps) (e : ProcEnv) :
    (∀ w, e.lookupEnv "HELM_CHART_WATCHES" = some w →
      NewManagersFromEnv ops e = ops.fromFile w) ∧
    (e.lookupEnv "HELM_CHART_WATCHES" = none →
      e.fileExists defaultHelmChartWatchesFile = true →
      NewManagersFromEnv ops e = ops.fromFile defaultHelmChartWatchesFile) ∧
    (e.lookupEnv "HELM_CHART_WATCHES" = none →
      e.fileExists defaultHelmChartWatchesFile = false →
      ∀ gv, ops.parseGroupVersion (getenv e "API_VERSION") = Except.ok gv →
        verifyGVK ⟨gv.group, gv.version, getenv e "KIND"⟩ = none →
        ops.isChartDir (getenv e "HELM_CHART") = true →
        NewManagersFromEnv ops e =
          Except.ok [(⟨gv.group, gv.version, getenv e "KIND"⟩,
            getenv e "HELM_CHART")]) := by
  refine ⟨?_, ?_, ?_⟩
  · intro w hw
    simp [NewManagersFromEnv, getWatchesFile, hw]
  · intro hnone hex
    simp [NewManagersFromEnv, getWatchesFile, hnone, hex]
  · intro hnone hnex gv hgv hverify hchart
    simp [NewManagersFromEnv, getWatchesFile, hnone, hnex,
      newManagerFromEnv, hgv, hverify, hchart]

/-- A process environment whose only set variable is
`HELM_CHART_WATCHES=""`. -/
def envWatchesSet : ProcEnv :=
  ⟨fun k => if k = "HELM_CHART_WATCHES" then some "" else none, fun _ => false⟩

/-- A process environment with nothing set and the default watches
file present on disk. -/
def envDefaultFile : ProcEnv :=
  ⟨fun _ => none, fun p => p == defaultHelmChartWatchesFile⟩

/-- A process environment configured for single-entry fallback mode. -/
def envFallback : ProcEnv :=
  ⟨fun k =>
    if k = "API_VERSION" then some "apache.org/v1alpha1"
    else if k = "KIND" then some "Tomcat"
    else if k = "HELM_CHART" then some "/chart/tomcat"
    else none,
   fun _ => false⟩

/-- Loader capabilities used by the C9 witness. -/
def loaderOps0 : LoaderOps :=
  ⟨fun _ => Except.ok ⟨"apache.org", "v1alpha1"⟩,
   fun _ => true,
   fun p => Except.ok [(⟨"file", "file", "file"⟩, p)]⟩

theorem spec_C9_watch_resolution_witness :
    NewManagersFromEnv loaderOps0 envWatchesSet = loaderOps0.fromFile "" ∧
    NewManagersFromEnv loaderOps0 envDefaultFile =
      loaderOps0.fromFile defaultHelmChartWatchesFile ∧
    NewManagersFromEnv loaderOps0 envFallback =
      Except.ok [(⟨"apache.org", "v1alpha1", "Tomcat"⟩, "/chart/tomcat")] := by
  refine ⟨(spec_C9_watch_resolution loaderOps0 envWatchesSet).1 "" rfl,
    (spec_C9_watch_resolution loaderOps0 envDefaultFile).2.1 rfl (by decide),
    ?_⟩
  have h := (spec_C9_watch_resolution loaderOps0 envFallback).2.2 rfl rfl
    ⟨"apache.org", "v1alpha1"⟩ rfl (by decide) rfl
  exact h

/-! ### Owner-ref engine: helper lemmas -/

/-- Looking up `k` after in-place replacement of the bindings under
`k` yields the new value, provided the key occurs. -/
theorem lookup_map_set (m : List (String × Yaml)) (k : String) (v : Yaml) :
    m.any (fun kv => kv.1 = k) = true →
    lookupField (m.map (fun kv => if kv.1 = k then (k, v) else kv)) k =
      some v := by
  induction m with
  | nil => simp
  | cons kv t ih =>
      obtain ⟨k1, v1⟩ := kv
      intro hany
      by_cases hk : k1 = k
      · subst hk
        rw [List.map_cons]
        rw [if_pos rfl]
        simp [lookupField]
      · simp only [List.any_cons, decide_eq_true_eq, hk, decide_False,
          Bool.false_or] at hany
        rw [List.map_cons]
        rw [if_neg hk]
        simp only [lookupField, if_neg hk]
        exact ih hany

/-- Looking up `k` after appending a binding for the absent key `k`
yields the new value. -/
theorem lookup_append_set (m : List (String × Yaml)) (k : String) (v : Yaml) :
    m.any (fun kv => kv.1 = k) = false →
    lookupField (m ++ [(k, v)]) k = some v := by
  induction m with
  | nil => simp [lookupField]
  | cons kv t ih =>
      obtain ⟨k1, v1⟩ := kv
      intro hany
      simp only [List.any_cons, Bool.or_eq_false_iff, decide_eq_false_iff_not]
        at hany
      simp only [List.cons_append, lookupField, if_neg hany.1]
      exact ih (by simpa using hany.2)

/-- Looking up a key right after `setField` on that key yields the new
value. -/
theorem lookup_setField (m : List (String × Yaml)) (k : String) (v : Yaml) :
    lookupField (setField m k v) k = some v := by
  unfold setField
  split
  · exact lookup_map_set m k v (by assumption)
  · exact lookup_append_set m k v (Bool.eq_false_iff.mpr (by assumption))

/-- After injecting owner references the parsed document reads them
back as exactly the injected list. -/
theorem getOwnerRefs_setOwnerReferences (doc : List (String × Yaml))
    (refs : List OwnerRef) :
    getOwnerRefs (setOwnerReferences doc refs) =
      some (Yaml.ownerRefList refs) := by
  unfold getOwnerRefs setOwnerReferences
  rw [lookup_setField]
  exact lookup_setField _ _ _

/-- Every entry emitted by `renderLoop` originates from an input entry
of the same file name whose contents parsed to a non-empty document;
the emitted contents are the serialization of that document with the
owner references injected. -/
theorem renderLoop_mem (c : Codec) (refs : List OwnerRef) :
    ∀ (rendered out : List (String × String)) (fn s : String),
      renderLoop c refs rendered = Except.ok out →
      (fn, s) ∈ out →
      ∃ s' d, (fn, s') ∈ rendered ∧ c.fromYaml s' = ParseResult.ok d ∧
        d.isEmpty = false ∧ s = c.toYaml (setOwnerReferences d refs) := by
  intro rendered
  induction rendered with
  | nil =>
      intro out fn s hrun hmem
      simp only [renderLoop] at hrun
      cases hrun
      simp at hmem
  | cons hd t ih =>
      intro out fn s hrun hmem
      obtain ⟨hdFn, hdS⟩ := hd
      simp only [renderLoop] at hrun
      by_cases hy : strEndsWith hdFn ".yaml"
      · simp only [hy, if_true] at hrun
        cases hadd : addOwnerRefs c refs hdS with
        | error e => simp only [hadd] at hrun; cases hrun
        | ok withOwner =>
            simp only [hadd] at hrun
            by_cases hw : withOwner = ""
            · simp only [hw, if_true] at hrun
              exact (ih out fn s hrun hmem).imp (fun s' h =>
                h.imp (fun d hh => ⟨List.mem_cons_of_mem _ hh.1, hh.2⟩))
            · simp only [hw, if_false] at hrun
              cases hrest : renderLoop c refs t with
              | error e => simp only [hrest] at hrun; cases hrun
              | ok out' =>
                  simp only [hrest] at hrun
                  cases hrun
                  rcases List.mem_cons.mp hmem with heq | hmem'
                  · cases heq
                    unfold addOwnerRefs at hadd
                    cases hparse : c.fromYaml hdS with
                    | err e => simp only [hparse] at hadd; cases hadd
                    | ok parsed =>
                        simp only [hparse] at hadd
                        by_cases hemp : parsed.isEmpty = true
                        · simp only [hemp, if_true] at hadd
                          cases hadd
                          exact absurd rfl hw
                        · simp only [hemp, if_false] at hadd
                          cases hadd
                          exact ⟨hdS, parsed, List.mem_cons_self _ _, hparse,
                            Bool.eq_false_iff.mpr hemp, rfl⟩
                  · exact (ih out' fn s hrest hmem').imp (fun s' h =>
                      h.imp (fun d hh => ⟨List.mem_cons_of_mem _ hh.1, hh.2⟩))
      · simp only [hy, if_false] at hrun
        exact (ih out fn s hrun hmem).imp (fun s' h =>
          h.imp (fun d hh => ⟨List.mem_cons_of_mem _ hh.1, hh.2⟩))

/-- In a list with pairwise-distinct keys, two entries sharing a key
coincide. -/
theorem nodup_key_eq {α : Type} (l : List (String × α))
    (hkeys : (l.map Prod.fst).Nodup) :
    ∀ fn s s', (fn, s) ∈ l → (fn, s') ∈ l → s = s' := by
  induction l with
  | nil => intro fn s s' h; simp at h
  | cons hd t ih =>
      intro fn s s' hs hs'
      simp only [List.map_cons, List.nodup_cons] at hkeys
      rcases List.mem_cons.mp hs with heq | hmem
      · rcases List.mem_cons.mp hs' with heq' | hmem'
        · rw [← heq] at heq'
          exact ((Prod.mk.injEq _ _ _ _).mp heq').2.symm
        · cases heq
          exact absurd (List.mem_map_of_mem Prod.fst hmem') hkeys.1
      · rcases List.mem_cons.mp hs' with heq' | hmem'
        · cases heq'
          exact absurd (List.mem_map_of_mem Prod.fst hmem) hkeys.1
        · exact ih hkeys.2 fn s s' hmem hmem'

/-- C2: for any base-engine output, the files emitted by
`OwnerRefEngine.Render` whose contents parse as a non-empty document
carry exactly the CR's controller reference as their sole owner
reference (replacing any owner references the rendered document
already had), and every ".yaml" file parsing to an empty document is
dropped. `hrt` states that the external YAML codec reads back what it
wrote for the documents processed in this render. -/
theorem spec_C2_owner_injection (c : Codec) (av k nm u : String)
    (rendered out : List (String × String))
    (hkeys : (rendered.map Prod.fst).Nodup)
    (hrt : ∀ fn s d, (fn, s) ∈ rendered → c.fromYaml s = ParseResult.ok d →
      d.isEmpty = false →
      c.fromYaml (c.toYaml (setOwnerReferences d [newControllerRef av k nm u])) =
        ParseResult.ok (setOwnerReferences d [newControllerRef av k nm u]))
    (hrun : ownerRefEngineRender c [newControllerRef av k nm u] rendered =
      Except.ok out) :
    (∀ fn s, (fn, s) ∈ out →
      ∀ d, c.fromYaml s = ParseResult.ok d → d.isEmpty = false →
        getOwnerRefs d = some (Yaml.ownerRefList [newControllerRef av k nm u])) ∧
    (∀ fn s, (fn, s) ∈ rendered → strEndsWith fn ".yaml" = true →
      c.fromYaml s = ParseResult.ok [] → ¬ fn ∈ out.map Prod.fst) := by
  constructor
  · intro fn s hmem d hparse hne
    obtain ⟨s', d', hmem', hparse', hne', hser⟩ :=
      renderLoop_mem c [newControllerRef av k nm u] rendered out fn s hrun hmem
    subst hser
    rw [hrt fn s' d' hmem' hparse' hne'] at hparse
    cases hparse
    exact getOwnerRefs_setOwnerReferences d' [newControllerRef av k nm u]
  · intro fn s hmem hyaml hparse hout
    obtain ⟨s0, hmem0⟩ := by
      simpa [List.mem_map, Prod.exists] using hout
    obtain ⟨s', d', hmem', hparse', hne', _⟩ :=
      renderLoop_mem c [newControllerRef av k nm u] rendered out fn s0
        hrun hmem0
    have hss : s = s' := nodup_key_eq rendered hkeys fn s s' hmem hmem'
    rw [← hss] at hparse'
    rw [hparse] at hparse'
    cases hparse'
    simp at hne'

/-- C7 counterexample: a rendered file whose name does not end in
".yaml" is omitted from the output entirely (here the whole output is
empty), so it is not passed through unchanged as the claim states. -/
theorem spec_C7_counterexample :
    ownerRefEngineRender ⟨fun _ => ParseResult.err "boom", fun _ => ""⟩ []
        [("NOTES.txt", "hello")] = Except.ok [] ∧
    ¬ (("NOTES.txt", "hello") ∈ ([] : List (String × String))) :=
  ⟨rfl, by simp⟩

/-- C7 as amended: every file name in the output of
`OwnerRefEngine.Render` ends in ".yaml"; rendered files with any other
name are dropped from the output (not passed through). -/
theorem spec_C7_nonyaml_dropped (c : Codec) (refs : List OwnerRef)
    (rendered out : List (String × String))
    (hrun : ownerRefEngineRender c refs rendered = Except.ok out) :
    ∀ fn s, (fn, s) ∈ out → strEndsWith fn ".yaml" = true := by
  intro fn s hmem
  induction rendered generalizing out with
  | nil =>
      simp only [ownerRefEngineRender, renderLoop] at hrun
      cases hrun
      simp at hmem
  | cons hd t ih =>
      obtain ⟨hdFn, hdS⟩ := hd
      simp only [ownerRefEngineRender, renderLoop] at hrun ih
      by_cases hy : strEndsWith hdFn ".yaml"
      · simp only [hy, if_true] at hrun
        cases hadd : addOwnerRefs c refs hdS with
        | error e => simp only [hadd] at hrun; cases hrun
        | ok withOwner =>
            simp only [hadd] at hrun
            by_cases hw : withOwner = ""
            · simp only [hw, if_true] at hrun
              exact ih out hrun hmem
            · simp only [hw, if_false] at hrun
              cases hrest : renderLoop c refs t with
              | error e => simp only [hrest] at hrun; cases hrun
              | ok out' =>
                  simp only [hrest] at hrun
                  cases hrun
                  rcases List.mem_cons.mp hmem with heq | hmem'
                  · cases heq; exact hy
                  · exact ih out' hrest hmem'
      · simp only [hy, if_false] at hrun
        exact ih out hrun hmem

/-- Every error produced by the render loop wraps a structured parse
error of some ".yaml" file; its message starts with the fixed wrap
text (and carries the parse error, not the file name). -/
theorem renderLoop_error_shape (c : Codec) (refs : List OwnerRef) :
    ∀ (rendered : List (String × String)) (e : String),
      renderLoop c refs rendered = Except.error e →
      ∃ m, e = "error parsing rendered template to add ownerrefs: " ++ m := by
  intro rendered
  induction rendered with
  | nil => intro e hrun; simp only [renderLoop] at hrun; cases hrun
  | cons hd t ih =>
      intro e hrun
      obtain ⟨hdFn, hdS⟩ := hd
      simp only [renderLoop] at hrun
      by_cases hy : strEndsWith hdFn ".yaml" = true
      · simp only [hy, if_true] at hrun
        cases hadd : addOwnerRefs c refs hdS with
        | error e' =>
            simp only [hadd] at hrun
            cases hrun
            unfold addOwnerRefs at hadd
            cases hparse : c.fromYaml hdS with
            | err m =>
                simp only [hparse] at hadd
                cases hadd
                exact ⟨m, rfl⟩
            | ok parsed =>
                simp only [hparse] at hadd
                by_cases hemp : parsed.isEmpty = true
                · simp only [hemp, if_true] at hadd; cases hadd
                · simp only [hemp, if_false] at hadd; cases hadd
        | ok withOwner =>
            simp only [hadd] at hrun
            by_cases hw : withOwner = ""
            · simp only [hw, if_true] at hrun
              exact ih e hrun
            · simp only [hw, if_false] at hrun
              cases hrest : renderLoop c refs t with
              | error e2 =>
                  simp only [hrest] at hrun
                  cases hrun
                  exact ih _ hrest
              | ok out' => simp only [hrest] at hrun; cases hrun
      · simp only [hy, if_false] at hrun
        exact ih e hrun

/-- If some ".yaml" file parses to a structured error, the render loop
fails. -/
theorem renderLoop_error_of_bad_file (c : Codec) (refs : List OwnerRef) :
    ∀ (rendered : List (String × String)) (fn s m : String),
      (fn, s) ∈ rendered → strEndsWith fn ".yaml" = true →
      c.fromYaml s = ParseResult.err m →
      ∃ e, renderLoop c refs rendered = Except.error e := by
  intro rendered
  induction rendered with
  | nil => intro fn s m h; simp at h
  | cons hd t ih =>
      intro fn s m hmem hy hparse
      obtain ⟨hdFn, hdS⟩ := hd
      simp only [renderLoop]
      by_cases hyHd : strEndsWith hdFn ".yaml" = true
      · simp only [hyHd, if_true]
        cases hadd : addOwnerRefs c refs hdS with
        | error e => exact ⟨e, rfl⟩
        | ok withOwner =>
            have hrec : ∃ e, renderLoop c refs t = Except.error e := by
              rcases List.mem_cons.mp hmem with heq | hmem'
              · cases heq
                unfold addOwnerRefs at hadd
                simp only [hparse] at hadd
                cases hadd
              · exact ih fn s m hmem' hy hparse
            obtain ⟨e, he⟩ := hrec
            by_cases hw : withOwner = ""
            · simp only [hw, if_true]
              exact ⟨e, he⟩
            · simp only [hw, if_false, he]
              exact ⟨e, rfl⟩
      · simp only [hyHd, if_false]
        rcases List.mem_cons.mp hmem with heq | hmem'
        · cases heq
          exact absurd hy hyHd
        · exact ih fn s m hmem' hy hparse

/-- C8 counterexample: a ".yaml" file whose contents parse to a
structured error makes `Render` fail, but the error message is the
wrapped parse error and does not include the originating filename
("bad.yaml" does not occur in it). -/
theorem spec_C8_counterexample :
    ownerRefEngineRender ⟨fun _ => ParseResult.err "boom", fun _ => ""⟩ []
        [("bad.yaml", "junk")] =
      Except.error "error parsing rendered template to add ownerrefs: boom" ∧
    containsSubstr "error parsing rendered template to add ownerrefs: boom"
      "bad.yaml" = false :=
  ⟨rfl, by decide⟩

/-- C8 as amended: for every rendered ".yaml" file whose contents
parse to a structured error, `OwnerRefEngine.Render` fails, and the
resulting error message wraps a parse error with the fixed prefix —
it does not carry the originating filename (that is only logged at
debug level). -/
theorem spec_C8_parse_error_fails (c : Codec) (refs : List OwnerRef)
    (rendered : List (String × String)) (fn s m : String)
    (hmem : (fn, s) ∈ rendered)
    (hy : strEndsWith fn ".yaml" = true)
    (hparse : c.fromYaml s = ParseResult.err m) :
    ∃ e m', ownerRefEngineRender c refs rendered = Except.error e ∧
      e = "error parsing rendered template to add ownerrefs: " ++ m' := by
  obtain ⟨e, he⟩ := renderLoop_error_of_bad_file c refs rendered fn s m hmem hy hparse
  obtain ⟨m', hm'⟩ := renderLoop_error_shape c refs rendered e he
  exact ⟨e, m', he, hm'⟩

theorem spec_C8_parse_error_fails_witness :
    ∃ e m', ownerRefEngineRender
        ⟨fun _ => ParseResult.err "boom", fun _ => ""⟩ []
        [("ok.txt", "x"), ("bad.yaml", "junk")] = Except.error e ∧
      e = "error parsing rendered template to add ownerrefs: " ++ m' :=
  spec_C8_parse_error_fails ⟨fun _ => ParseResult.err "boom", fun _ => ""⟩ []
    [("ok.txt", "x"), ("bad.yaml", "junk")] "bad.yaml" "junk" "boom"
    (by simp) (by decide) rfl

theorem spec_C7_nonyaml_dropped_witness :
    strEndsWith "svc.yaml" ".yaml" = true := by
  have h := spec_C7_nonyaml_dropped
    ⟨fun _ => ParseResult.ok [("kind", Yaml.scalar "Service")], fun _ => "out"⟩
    [] [("svc.yaml", "in"), ("NOTES.txt", "note")] [("svc.yaml", "out")]
    rfl "svc.yaml" "out"
  exact h (by simp)

/-- Concrete rendered document used by the C2 witness: it already
carries a foreign owner reference that the engine must replace. -/
def wDoc : List (String × Yaml) :=
  [("kind", Yaml.scalar "Service"),
   ("metadata", Yaml.obj
     [("name", Yaml.scalar "svc"),
      ("ownerReferences", Yaml.ownerRefList
        [⟨"other/v1", "Other", "foreign", "fuid", false, false⟩])])]

/-- The witness document after owner injection. -/
def wDocOut : List (String × Yaml) :=
  setOwnerReferences wDoc [newControllerRef "apache.org/v1alpha1" "Tomcat" "t1" "uid1"]

/-- Concrete YAML codec used by the C2 witness: a three-string parse
table and a constant serializer. -/
def wCodec : Codec :=
  ⟨fun s =>
    if s = "in" then ParseResult.ok wDoc
    else if s = "out" then ParseResult.ok wDocOut
    else if s = "empty" then ParseResult.ok []
    else ParseResult.err "boom",
   fun _ => "out"⟩

theorem spec_C2_owner_injection_witness :
    getOwnerRefs wDocOut =
      some (Yaml.ownerRefList
        [newControllerRef "apache.org/v1alpha1" "Tomcat" "t1" "uid1"]) ∧
    ¬ "empty.yaml" ∈
      ([("svc.yaml", "out")] : List (String × String)).map Prod.fst := by
  have h := spec_C2_owner_injection wCodec "apache.org/v1alpha1" "Tomcat" "t1"
    "uid1" [("svc.yaml", "in"), ("empty.yaml", "empty"), ("NOTES.txt", "note")]
    [("svc.yaml", "out")]
    (by simp)
    (by
      intro fn s d hmem hp hne
      simp only [List.mem_cons, List.not_mem_nil, or_false] at hmem
      rcases hmem with h1 | h2 | h3
      · cases h1
        have hp' : ParseResult.ok wDoc = ParseResult.ok d := by
          rw [← hp]; rfl
        cases hp'
        rfl
      · cases h2
        have hp' : ParseResult.ok ([] : List (String × Yaml)) =
            ParseResult.ok d := by
          rw [← hp]; rfl
        cases hp'
        cases hne
      · cases h3
        have hp' : ParseResult.err "boom" = ParseResult.ok d := by
          rw [← hp]; rfl
        cases hp')
    rfl
  refine ⟨?_, ?_⟩
  · exact h.1 "svc.yaml" "out" (by simp) wDocOut rfl rfl
  · exact h.2 "empty.yaml" "empty" (by simp) (by decide) rfl

/-! ### Reconciler dispatch (C1) -/

/-- C1: in a reconcile of a non-deleted CR (carrying the finalizer)
whose `Sync` succeeded, exactly one of the three release actions runs,
chosen by the cached flags: not installed → `InstallRelease` with a
status write of phase Applied / reason ApplySuccessful; installed and
update required → `UpdateRelease` with the same status write (update
takes precedence over drift repair); installed and no update required
→ `ReconcileRelease` with no status write. -/
theorem spec_C1_dispatch (env : REnv) (o : CR) (b b' : Backend)
    (flags : SyncFlags)
    (hdel : o.deleted = false)
    (hfin : o.finalizers.contains finalizerName = true)
    (hsync : Sync env o b = (b', Except.ok flags)) :
    ((Reconcile env (some o) b).actions.length = 1) ∧
    (flags.isInstalled = false →
      (Reconcile env (some o) b).actions = [MAction.install] ∧
      (env.installErr = none →
        ∃ st, (Reconcile env (some o) b).statusWrite = some st ∧
          st.phase = ResourcePhase.applied ∧
          st.reason = ConditionReason.applySuccessful)) ∧
    (flags.isInstalled = true → flags.isUpdateRequired = true →
      (Reconcile env (some o) b).actions = [MAction.update] ∧
      (env.updateErr = none →
        ∃ st, (Reconcile env (some o) b).statusWrite = some st ∧
          st.phase = ResourcePhase.applied ∧
          st.reason = ConditionReason.applySuccessful)) ∧
    (flags.isInstalled = true → flags.isUpdateRequired = false →
      (Reconcile env (some o) b).actions = [MAction.reconcileRel] ∧
      (Reconcile env (some o) b).statusWrite = none) := by
  have hguard : (!o.deleted && !(o.finalizers.contains finalizerName)) = false := by
    rw [hdel, hfin]; rfl
  have hfinMem : finalizerName ∈ o.finalizers := by simpa using hfin
  cases hInst : flags.isInstalled with
  | false =>
      refine ⟨?_, ?_, ?_, ?_⟩
      all_goals
        simp only [Reconcile, hguard, if_false, hsync, hdel, hInst, hfinMem,
          Bool.false_eq_true, Bool.not_false, if_true]
      all_goals simp only [Bool.true_and, hfin, Bool.not_true,
        Bool.false_eq_true, if_false]
      · cases hie : env.installErr with
        | none => simp [tillerInstall, hie]
        | some e => simp [tillerInstall, hie]
      · intro _
        cases hie : env.installErr with
        | none =>
            refine ⟨by simp [tillerInstall, hie], ?_⟩
            intro _
            simp only [tillerInstall, hie]
            exact ⟨_, rfl, rfl, rfl⟩
        | some e =>
            refine ⟨by simp [tillerInstall, hie], ?_⟩
            intro hie2
            cases hie2
      · intro hc; cases hc
      · intro hc; cases hc
  | true =>
      cases hUpd : flags.isUpdateRequired with
      | true =>
          refine ⟨?_, ?_, ?_, ?_⟩
          all_goals
            simp only [Reconcile, hguard, if_false, hsync, hdel, hInst, hUpd,
              hfinMem, Bool.true_eq_false, Bool.not_true, if_false, if_true]
          all_goals simp only [Bool.true_and, hfin, Bool.not_true,
        Bool.false_eq_true, if_false]
          · cases hue : env.updateErr with
            | none => simp [tillerUpdate, hue]
            | some e => simp [tillerUpdate, hue]
          · intro hc; cases hc
          · intro _ _
            cases hue : env.updateErr with
            | none =>
                refine ⟨by simp [tillerUpdate, hue], ?_⟩
                intro _
                simp only [tillerUpdate, hue]
                exact ⟨_, rfl, rfl, rfl⟩
            | some e =>
                refine ⟨by simp [tillerUpdate, hue], ?_⟩
                intro hue2
                cases hue2
          · intro _ hc; cases hc
      | false =>
          refine ⟨?_, ?_, ?_, ?_⟩
          all_goals
            simp only [Reconcile, hguard, if_false, hsync, hdel, hInst, hUpd,
              hfinMem, Bool.true_eq_false, Bool.false_eq_true, Bool.not_true,
              if_false, if_true]
          all_goals simp only [Bool.true_and, hfin, Bool.not_true,
        Bool.false_eq_true, if_false]
          · cases hre : env.reconcileErr with
            | none => simp [hre]
            | some e => simp [hre]
          · intro hc; cases hc
          · intro _ hc; cases hc
          · intro _ _
            cases hre : env.reconcileErr with
            | none => simp [hre]
            | some e => simp [hre]

/-- A deterministic environment without injected faults, rendering
every spec to the manifest "M". -/
def env0 : REnv :=
  ⟨fun _ => "M", fun _ => none, none, none, none, none, none, none⟩

/-- A fresh CR already carrying the finalizer. -/
def cr0 : CR :=
  ⟨"t1", "u1", "default", "spec1",
   ⟨none, ResourcePhase.noPhase, ConditionReason.unknown, ""⟩,
   [finalizerName], false⟩

/-- An empty storage backend. -/
def b0 : Backend := ⟨[], []⟩

theorem spec_C1_dispatch_witness :
    (Reconcile env0 (some cr0) b0).actions = [MAction.install] ∧
    ∃ st, (Reconcile env0 (some cr0) b0).statusWrite = some st ∧
      st.phase = ResourcePhase.applied ∧
      st.reason = ConditionReason.applySuccessful := by
  have h := spec_C1_dispatch env0 cr0 b0 b0 ⟨false, false, none⟩ rfl
    (by decide) rfl
  obtain ⟨hlen, hinstall, hu, hr⟩ := h
  obtain ⟨hact, hst⟩ := hinstall rfl
  exact ⟨hact, hst rfl⟩

/-! ### Storage and garbage-collection lemmas (C4, C5, C6) -/

/-- Delete-fault coherence: an injected delete failure never lies
about the record being absent (the real storage driver's only
not-found error occurs when the record is indeed absent). -/
def CoherentFaults (b : Backend) : Prop :=
  ∀ f ∈ b.deleteFaults, containsSubstr f.2.2 "not found" = false

/-- Key uniqueness: the backend holds at most one record per
`(name, version)` key — the shape every keyed storage driver
guarantees. -/
def KeysUnique (b : Backend) : Prop :=
  ∀ x y, x ∈ b.rels → y ∈ b.rels → x.name = y.name → x.version = y.version →
    x = y

/-- Status/backend agreement: the status snapshot, when it records a
DEPLOYED release, agrees in status code with the backend record stored
under its key (the operator only writes snapshots of records it just
stored). -/
def StatusCoherent (cr : CR) (b : Backend) : Prop :=
  ∀ r x, cr.status.release = some r → r.code = StatusCode.deployed →
    x ∈ b.rels → x.name = r.name → x.version = r.version →
    x.code = StatusCode.deployed

/-- Membership in `history` unfolded. -/
theorem mem_history {b : Backend} {name : String} {r : Release} :
    r ∈ history b name ↔ r ∈ b.rels ∧ r.name = name := by
  unfold history
  rw [List.mem_filter]
  simp

/-- `pickMax` picks an element of its argument. -/
theorem pickMax_mem : ∀ {l : List Release} {r : Release},
    pickMax l = some r → r ∈ l := by
  intro l
  induction l with
  | nil => intro r h; simp [pickMax] at h
  | cons hd t ih =>
      intro r h
      simp only [pickMax] at h
      cases hp : pickMax t with
      | none =>
          simp only [hp] at h
          cases h
          exact List.mem_cons_self _ _
      | some m =>
          simp only [hp] at h
          by_cases hv : m.version < hd.version
          · rw [if_pos hv] at h
            cases h
            exact List.mem_cons_self _ _
          · rw [if_neg hv] at h
            cases h
            exact List.mem_cons_of_mem _ (ih hp)

/-- `pickMax` only returns `none` on the empty list. -/
theorem pickMax_eq_none : ∀ {l : List Release},
    pickMax l = none → l = [] := by
  intro l
  cases l with
  | nil => intro _; rfl
  | cons hd t =>
      intro h
      simp only [pickMax] at h
      cases hp : pickMax t with
      | none => simp only [hp] at h; cases h
      | some m =>
          simp only [hp] at h
          by_cases hv : m.version < hd.version
          · rw [if_pos hv] at h; cases h
          · rw [if_neg hv] at h; cases h

/-- A deployed record under `name` forces `storageDeployed` to find
one. -/
theorem storageDeployed_isSome {b : Backend} {name : String} {x : Release}
    (hx : x ∈ b.rels) (hn : x.name = name)
    (hc : x.code = StatusCode.deployed) :
    ∃ y, storageDeployed b name = some y := by
  cases hd : storageDeployed b name with
  | some y => exact ⟨y, rfl⟩
  | none =>
      unfold storageDeployed at hd
      have hfil := pickMax_eq_none hd
      have hmem : x ∈ (history b name).filter
          (fun r => r.code == StatusCode.deployed) := by
        rw [List.mem_filter]
        exact ⟨mem_history.mpr ⟨hx, hn⟩, by simp [hc]⟩
      rw [hfil] at hmem
      simp at hmem

/-- A found deployed release is a deployed record under `name`. -/
theorem storageDeployed_spec {b : Backend} {name : String} {y : Release}
    (h : storageDeployed b name = some y) :
    y ∈ b.rels ∧ y.name = name ∧ y.code = StatusCode.deployed := by
  unfold storageDeployed at h
  have hmem := pickMax_mem h
  rw [List.mem_filter] at hmem
  obtain ⟨hh, hc⟩ := hmem
  obtain ⟨hb, hn⟩ := mem_history.mp hh
  exact ⟨hb, hn, by simpa using hc⟩

/-- Elements of `b.rels` bound `maxVersion`. -/
theorem version_le_maxVersion {b : Backend} {name : String} {r : Release}
    (hr : r ∈ b.rels) (hn : r.name = name) :
    r.version ≤ maxVersion b name := by
  unfold maxVersion
  have hh : r ∈ history b name := mem_history.mpr ⟨hr, hn⟩
  have key : ∀ (l : List Release) (acc : Nat), r ∈ l →
      r.version ≤ l.foldl (fun a x => max a x.version) acc := by
    intro l
    induction l with
    | nil => intro acc h; simp at h
    | cons hd t ih =>
        intro acc h
        rcases List.mem_cons.mp h with heq | hmem
        · cases heq
          have hstep : r.version ≤ max acc r.version := le_max_right _ _
          calc r.version ≤ max acc r.version := hstep
            _ ≤ t.foldl (fun a x => max a x.version) (max acc r.version) := by
                have mono : ∀ (l' : List Release) (a : Nat),
                    a ≤ l'.foldl (fun a x => max a x.version) a := by
                  intro l'
                  induction l' with
                  | nil => intro a; exact le_refl a
                  | cons h2 t2 ih2 =>
                      intro a
                      exact le_trans (le_max_left a h2.version) (ih2 _)
                exact mono t _
        · rw [List.foldl_cons]
          exact ih _ hmem
  exact key (history b name) 0 hh

/-- The fact "release: not found" contains "not found". -/
theorem notFound_msg : notFoundErr "release: not found" = true := by decide

/-- Inversion of a successful delete: the result drops exactly the
records under the key, keeps the fault table, and no fault was
injected for the key. -/
theorem storageDelete_ok {b : Backend} {n : String} {v : Nat} {r : Release}
    {b' : Backend} (h : storageDelete b n v = Except.ok (r, b')) :
    b'.rels = b.rels.filter (fun x => !(x.name == n && x.version == v)) ∧
    b'.deleteFaults = b.deleteFaults ∧ faultFor b n v = none := by
  unfold storageDelete at h
  cases hf : faultFor b n v with
  | some m => simp only [hf] at h; cases h
  | none =>
      simp only [hf] at h
      cases hfind : b.rels.find? (fun x => x.name == n && x.version == v) with
      | some y => simp only [hfind] at h; cases h; exact ⟨rfl, rfl, rfl⟩
      | none => simp only [hfind] at h; cases h

/-- Inversion of a failed delete: either the error is the injected
fault, or it is the not-found error and no record carries the key. -/
theorem storageDelete_err {b : Backend} {n : String} {v : Nat} {e : String}
    (h : storageDelete b n v = Except.error e) :
    faultFor b n v = some e ∨
    (faultFor b n v = none ∧ e = "release: not found" ∧
      b.rels.find? (fun x => x.name == n && x.version == v) = none) := by
  unfold storageDelete at h
  cases hf : faultFor b n v with
  | some m =>
      simp only [hf] at h
      cases h
      exact Or.inl rfl
  | none =>
      simp only [hf] at h
      cases hfind : b.rels.find? (fun x => x.name == n && x.version == v) with
      | some y => simp only [hfind] at h; cases h
      | none =>
          simp only [hfind] at h
          cases h
          exact Or.inr ⟨rfl, rfl, rfl⟩

/-- `faultFor` only reads the fault table. -/
theorem faultFor_congr {b1 b2 : Backend} (n : String) (v : Nat)
    (h : b1.deleteFaults = b2.deleteFaults) :
    faultFor b1 n v = faultFor b2 n v := by
  unfold faultFor; rw [h]

/-- Coherence transfers along fault-table equality. -/
theorem coherent_of_faults_eq {b1 b2 : Backend}
    (h : b1.deleteFaults = b2.deleteFaults) (hc : CoherentFaults b1) :
    CoherentFaults b2 := by
  intro f hf
  exact hc f (h ▸ hf)

/-- Surviving a key filter means not carrying the key. -/
theorem mem_filter_key {l : List Release} {n : String} {v : Nat} {x : Release}
    (h : x ∈ l.filter (fun y => !(y.name == n && y.version == v))) :
    ¬(x.name = n ∧ x.version = v) := by
  have h2 := (List.mem_filter.mp h).2
  intro hk
  simp [hk.1, hk.2] at h2

/-- The garbage-collection loop only deletes records and never touches
the fault table. -/
theorem gc_sublist : ∀ (rs : List Release) (b b' : Backend) (e : Option String),
    gcNonDeployed b rs = (b', e) →
    b'.rels.Sublist b.rels ∧ b'.deleteFaults = b.deleteFaults := by
  intro rs
  induction rs with
  | nil =>
      intro b b' e h
      simp only [gcNonDeployed] at h
      cases h
      exact ⟨List.Sublist.refl _, rfl⟩
  | cons rel rest ih =>
      intro b b' e h
      simp only [gcNonDeployed] at h
      by_cases hc : rel.code = StatusCode.deployed
      · rw [if_pos hc] at h
        exact ih b b' e h
      · rw [if_neg hc] at h
        cases hdel : storageDelete b rel.name rel.version with
        | ok rb =>
            obtain ⟨r0, b2⟩ := rb
            simp only [hdel] at h
            obtain ⟨hsub, hfe⟩ := ih b2 b' e h
            obtain ⟨hrels, hfaults, _⟩ := storageDelete_ok hdel
            refine ⟨hsub.trans ?_, by rw [hfe, hfaults]⟩
            rw [hrels]
            exact List.filter_sublist _
        | error e2 =>
            simp only [hdel] at h
            by_cases hnf : notFoundErr e2 = true
            · rw [if_pos hnf] at h
              exact ih b b' e h
            · rw [if_neg hnf] at h
              cases h
              exact ⟨List.Sublist.refl _, rfl⟩

/-- An injected fault found by `faultFor` is coherently named. -/
theorem coherent_faultFor {b : Backend} (hcoh : CoherentFaults b) {n : String}
    {v : Nat} {m : String} (h : faultFor b n v = some m) :
    containsSubstr m "not found" = false := by
  unfold faultFor at h
  cases hfind : b.deleteFaults.find? (fun f => f.1 == n && f.2.1 == v) with
  | none => simp only [hfind, Option.map_none'] at h; cases h
  | some f =>
      simp only [hfind, Option.map_some'] at h
      cases h
      exact hcoh f (List.mem_of_find?_eq_some hfind)

/-- Under coherent faults, a successful garbage collection leaves no
record with the key of any non-deployed entry it processed. -/
theorem gc_removes : ∀ (rs : List Release) (b b' : Backend),
    CoherentFaults b → gcNonDeployed b rs = (b', none) →
    ∀ r ∈ rs, r.code ≠ StatusCode.deployed →
    ∀ x ∈ b'.rels, ¬(x.name = r.name ∧ x.version = r.version) := by
  intro rs
  induction rs with
  | nil => intro b b' _ _ r hr; simp at hr
  | cons rel rest ih =>
      intro b b' hcoh h r hr hrc x hx
      simp only [gcNonDeployed] at h
      by_cases hc : rel.code = StatusCode.deployed
      · rw [if_pos hc] at h
        rcases List.mem_cons.mp hr with heq | hmem
        · cases heq; exact absurd hc hrc
        · exact ih b b' hcoh h r hmem hrc x hx
      · rw [if_neg hc] at h
        cases hdel : storageDelete b rel.name rel.version with
        | ok rb =>
            obtain ⟨r0, b2⟩ := rb
            simp only [hdel] at h
            obtain ⟨hrels, hfaults, _⟩ := storageDelete_ok hdel
            have hcoh2 : CoherentFaults b2 :=
              coherent_of_faults_eq hfaults.symm hcoh
            rcases List.mem_cons.mp hr with heq | hmem
            · cases heq
              have hx2 : x ∈ b2.rels := (gc_sublist rest b2 b' none h).1.subset hx
              rw [hrels] at hx2
              exact mem_filter_key hx2
            · exact ih b2 b' hcoh2 h r hmem hrc x hx
        | error e2 =>
            simp only [hdel] at h
            rcases storageDelete_err hdel with hfault | ⟨_, he2, hfind⟩
            · have hbad : notFoundErr e2 = false := coherent_faultFor hcoh hfault
              rw [hbad] at h
              simp at h
            · have hnf : notFoundErr e2 = true := by rw [he2]; exact notFound_msg
              rw [hnf, if_pos rfl] at h
              rcases List.mem_cons.mp hr with heq | hmem
              · cases heq
                have hx2 : x ∈ b.rels := (gc_sublist rest b b' none h).1.subset hx
                have hnk := List.find?_eq_none.mp hfind x hx2
                intro hk
                simp [hk.1, hk.2] at hnk
              · exact ih b b' hcoh h r hmem hrc x hx

/-- A successful garbage collection tolerates an injected delete
failure for a processed non-deployed entry only when the failure
message names a not-found condition. -/
theorem gc_no_bad_fault : ∀ (rs : List Release) (b b' : Backend),
    gcNonDeployed b rs = (b', none) →
    ∀ r ∈ rs, r.code ≠ StatusCode.deployed →
    ∀ m, faultFor b r.name r.version = some m → notFoundErr m = true := by
  intro rs
  induction rs with
  | nil => intro b b' _ r hr; simp at hr
  | cons rel rest ih =>
      intro b b' h r hr hrc m hm
      simp only [gcNonDeployed] at h
      by_cases hc : rel.code = StatusCode.deployed
      · rw [if_pos hc] at h
        rcases List.mem_cons.mp hr with heq | hmem
        · cases heq; exact absurd hc hrc
        · exact ih b b' h r hmem hrc m hm
      · rw [if_neg hc] at h
        cases hdel : storageDelete b rel.name rel.version with
        | ok rb =>
            obtain ⟨r0, b2⟩ := rb
            simp only [hdel] at h
            obtain ⟨hrels, hfaults, hnofault⟩ := storageDelete_ok hdel
            rcases List.mem_cons.mp hr with heq | hmem
            · cases heq
              rw [hnofault] at hm
              cases hm
            · have hm2 : faultFor b2 r.name r.version = some m := by
                rw [faultFor_congr r.name r.version hfaults]
                exact hm
              exact ih b2 b' h r hmem hrc m hm2
        | error e2 =>
            simp only [hdel] at h
            by_cases hnf : notFoundErr e2 = true
            · rw [if_pos hnf] at h
              rcases List.mem_cons.mp hr with heq | hmem
              · cases heq
                rcases storageDelete_err hdel with hfault | ⟨hnone, _, _⟩
                · rw [hfault] at hm
                  cases hm
                  exact hnf
                · rw [hnone] at hm
                  cases hm
              · exact ih b b' h r hmem hrc m hm
            · rw [if_neg hnf] at h
              simp at h

/-- Garbage collection skips a deployed prefix of its worklist. -/
theorem gc_skip_deployed : ∀ (rs1 rs2 : List Release) (b : Backend),
    (∀ x ∈ rs1, x.code = StatusCode.deployed) →
    gcNonDeployed b (rs1 ++ rs2) = gcNonDeployed b rs2 := by
  intro rs1
  induction rs1 with
  | nil => intro rs2 b _; rfl
  | cons hd t ih =>
      intro rs2 b hall
      rw [List.cons_append]
      simp only [gcNonDeployed]
      rw [if_pos (hall hd (List.mem_cons_self _ _))]
      exact ih rs2 b (fun x hx => hall x (List.mem_cons_of_mem _ hx))

/-- Garbage collection of an all-deployed worklist is the identity. -/
theorem gc_noop (rs : List Release) (b : Backend)
    (hall : ∀ x ∈ rs, x.code = StatusCode.deployed) :
    gcNonDeployed b rs = (b, none) := by
  have h := gc_skip_deployed rs [] b hall
  rw [List.append_nil] at h
  rw [h]
  rfl

/-- A record sharing no key with any non-deployed worklist entry
survives garbage collection. -/
theorem gc_keeps : ∀ (rs : List Release) (b b' : Backend) (e : Option String),
    gcNonDeployed b rs = (b', e) →
    ∀ x ∈ b.rels,
      (∀ r ∈ rs, r.code ≠ StatusCode.deployed →
        ¬(x.name = r.name ∧ x.version = r.version)) →
      x ∈ b'.rels := by
  intro rs
  induction rs with
  | nil =>
      intro b b' e h x hx _
      simp only [gcNonDeployed] at h
      cases h
      exact hx
  | cons rel rest ih =>
      intro b b' e h x hx hkey
      simp only [gcNonDeployed] at h
      by_cases hc : rel.code = StatusCode.deployed
      · rw [if_pos hc] at h
        exact ih b b' e h x hx
          (fun r hr hrc => hkey r (List.mem_cons_of_mem _ hr) hrc)
      · rw [if_neg hc] at h
        cases hdel : storageDelete b rel.name rel.version with
        | ok rb =>
            obtain ⟨r0, b2⟩ := rb
            simp only [hdel] at h
            obtain ⟨hrels, _, _⟩ := storageDelete_ok hdel
            have hx2 : x ∈ b2.rels := by
              rw [hrels]
              rw [List.mem_filter]
              refine ⟨hx, ?_⟩
              have hne := hkey rel (List.mem_cons_self _ _) hc
              simp only [Bool.not_eq_true']
              cases hname : x.name == rel.name with
              | false => rfl
              | true =>
                  cases hver : x.version == rel.version with
                  | false => simp
                  | true =>
                      exact absurd ⟨by simpa using hname, by simpa using hver⟩ hne
            exact ih b2 b' e h x hx2
              (fun r hr hrc => hkey r (List.mem_cons_of_mem _ hr) hrc)
        | error e2 =>
            simp only [hdel] at h
            by_cases hnf : notFoundErr e2 = true
            · rw [if_pos hnf] at h
              exact ih b b' e h x hx
                (fun r hr hrc => hkey r (List.mem_cons_of_mem _ hr) hrc)
            · rw [if_neg hnf] at h
              cases h
              exact hx

/-- Inversion of a failed lookup: the error is the not-found message
and no record carries the key. -/
theorem storageGet_err {b : Backend} {n : String} {v : Nat} {e : String}
    (h : storageGet b n v = Except.error e) :
    e = "release: not found" ∧
    b.rels.find? (fun x => x.name == n && x.version == v) = none := by
  unfold storageGet at h
  cases hfind : b.rels.find? (fun x => x.name == n && x.version == v) with
  | some y => simp only [hfind] at h; cases h
  | none => simp only [hfind] at h; cases h; exact ⟨rfl, rfl⟩

/-- A stored record is found by `storageGet` under its own key. -/
theorem storageGet_ok_of_mem {b : Backend} {r : Release} (h : r ∈ b.rels) :
    ∃ x, storageGet b r.name r.version = Except.ok x := by
  unfold storageGet
  cases hfind : b.rels.find? (fun x => x.name == r.name && x.version == r.version) with
  | some y => exact ⟨y, rfl⟩
  | none =>
      have := List.find?_eq_none.mp hfind r h
      simp at this

/-- Inversion of `syncReleaseStatus` without error: either the backend
is untouched (no snapshot, or its key was found), or the snapshot was
re-created because its key was absent. -/
theorem srs_inv {st : HelmAppStatus} {b b1 : Backend}
    (h : syncReleaseStatus st b = (b1, none)) :
    b1 = b ∨
    ∃ r, st.release = some r ∧
      b.rels.find? (fun x => x.name == r.name && x.version == r.version) = none ∧
      b1 = { rels := b.rels ++ [r], deleteFaults := b.deleteFaults } := by
  unfold syncReleaseStatus at h
  cases hrel : st.release with
  | none => simp only [hrel] at h; cases h; exact Or.inl rfl
  | some r =>
      simp only [hrel] at h
      cases hget : storageGet b r.name r.version with
      | ok x => simp only [hget] at h; cases h; exact Or.inl rfl
      | error e =>
          simp only [hget] at h
          obtain ⟨he, hfind⟩ := storageGet_err hget
          have hnf : notFoundErr e = true := by rw [he]; exact notFound_msg
          rw [hnf, if_pos rfl] at h
          have hany : b.rels.any (fun x => x.name == r.name && x.version == r.version) = false := by
            rw [List.any_eq_false]
            intro x hx
            have := List.find?_eq_none.mp hfind x hx
            simpa using this
          unfold storageCreate at h
          rw [hany] at h
          simp only [Bool.false_eq_true, if_false] at h
          cases h
          exact Or.inr ⟨r, rfl, hfind, rfl⟩

/-- `syncReleaseStatus` preserves the fault table. -/
theorem srs_faults {st : HelmAppStatus} {b b1 : Backend}
    (h : syncReleaseStatus st b = (b1, none)) :
    b1.deleteFaults = b.deleteFaults := by
  rcases srs_inv h with heq | ⟨r, _, _, heq⟩
  · rw [heq]
  · rw [heq]

/-- `syncReleaseStatus` is the identity when there is no snapshot. -/
theorem srs_of_none {st : HelmAppStatus} {b : Backend}
    (hrel : st.release = none) : syncReleaseStatus st b = (b, none) := by
  unfold syncReleaseStatus
  rw [hrel]

/-- `syncReleaseStatus` is the identity when the snapshot's key is
found in the backend. -/
theorem srs_of_get_ok {st : HelmAppStatus} {b : Backend} {r x : Release}
    (hrel : st.release = some r)
    (hget : storageGet b r.name r.version = Except.ok x) :
    syncReleaseStatus st b = (b, none) := by
  unfold syncReleaseStatus
  simp only [hrel, hget]

/-- Inversion of a successful `Sync`: the two storage phases ran
without error, the chart loaded, and the flags record exactly the
deployed-release lookup and candidate comparison. -/
theorem Sync_inv {env : REnv} {cr : CR} {b bout : Backend} {flags : SyncFlags}
    (h : Sync env cr b = (bout, Except.ok flags)) :
    ∃ b1, syncReleaseStatus cr.status b = (b1, none) ∧
      gcNonDeployed b1 (history b1 (getReleaseName env cr)) = (bout, none) ∧
      env.chartErr = none ∧
      ((storageDeployed bout (getReleaseName env cr) = none ∧
        flags = ⟨false, false, none⟩) ∨
       (∃ dep, storageDeployed bout (getReleaseName env cr) = some dep ∧
        env.candidateErr = none ∧
        flags = ⟨true, dep.manifest != env.render cr.specVals, some dep⟩)) := by
  unfold Sync at h
  rcases hsrs : syncReleaseStatus cr.status b with ⟨b1, e1⟩
  rw [hsrs] at h
  cases e1 with
  | some e => simp only at h; cases h
  | none =>
      simp only at h
      rcases hgc : gcNonDeployed b1 (history b1 (getReleaseName env cr)) with ⟨b2, e2⟩
      rw [hgc] at h
      cases e2 with
      | some e => simp only at h; cases h
      | none =>
          simp only at h
          cases hchart : env.chartErr with
          | some e => rw [hchart] at h; cases h
          | none =>
              rw [hchart] at h
              unfold getDeployedRelease at h
              cases hdep : storageDeployed b2 (getReleaseName env cr) with
              | none =>
                  simp only [hdep] at h
                  cases h
                  exact ⟨b1, rfl, hgc, rfl, Or.inl ⟨hdep, rfl⟩⟩
              | some dep =>
                  simp only [hdep] at h
                  cases hcand : env.candidateErr with
                  | some e => rw [hcand] at h; cases h
                  | none =>
                      rw [hcand] at h
                      cases h
                      exact ⟨b1, rfl, hgc, rfl,
                        Or.inr ⟨dep, hdep, rfl, rfl⟩⟩

/-- C4's core: after a successful `Sync` with coherent faults, every
record remaining under the manager's release name is DEPLOYED. -/
theorem Sync_all_deployed {env : REnv} {cr : CR} {b bout : Backend}
    {flags : SyncFlags} (hcoh : CoherentFaults b)
    (h : Sync env cr b = (bout, Except.ok flags)) :
    ∀ r ∈ bout.rels, r.name = getReleaseName env cr →
      r.code = StatusCode.deployed := by
  obtain ⟨b1, hsrs, hgc, _, _⟩ := Sync_inv h
  intro r hr hn
  by_contra hrc
  have hcoh1 : CoherentFaults b1 :=
    coherent_of_faults_eq (srs_faults hsrs).symm hcoh
  have hrb1 : r ∈ b1.rels := (gc_sublist _ _ _ _ hgc).1.subset hr
  have hrhist : r ∈ history b1 (getReleaseName env cr) :=
    mem_history.mpr ⟨hrb1, hn⟩
  exact absurd ⟨rfl, rfl⟩ (gc_removes _ b1 bout hcoh1 hgc r hrhist hrc r hr)

/-- C4: after `Sync` returns without error (and no injected delete
failure lies about a record being absent), every release version
remaining under the manager's release name is DEPLOYED; every
non-DEPLOYED history entry seen by the cleanup loop is gone from the
backend; and a delete failure that is not a not-found error aborts
`Sync` — contrapositively, a successful `Sync` admits an injected
fault on a processed non-DEPLOYED entry only when its message names a
not-found condition. -/
theorem spec_C4_sync_gc :
    (∀ (env : REnv) (cr : CR) (b bout : Backend) (flags : SyncFlags),
      CoherentFaults b → Sync env cr b = (bout, Except.ok flags) →
      ∀ r, r ∈ bout.rels → r.name = getReleaseName env cr →
        r.code = StatusCode.deployed) ∧
    (∀ (env : REnv) (cr : CR) (b bout : Backend) (flags : SyncFlags),
      CoherentFaults b → Sync env cr b = (bout, Except.ok flags) →
      ∀ r, r ∈ history (syncReleaseStatus cr.status b).1 (getReleaseName env cr) →
        r.code ≠ StatusCode.deployed → ¬ r ∈ bout.rels) ∧
    (∀ (env : REnv) (cr : CR) (b bout : Backend) (flags : SyncFlags),
      Sync env cr b = (bout, Except.ok flags) →
      ∀ r, r ∈ history (syncReleaseStatus cr.status b).1 (getReleaseName env cr) →
        r.code ≠ StatusCode.deployed →
        ∀ m, faultFor b r.name r.version = some m →
          containsSubstr m "not found" = true) := by
  refine ⟨?_, ?_, ?_⟩
  · intro env cr b bout flags hcoh hsync r hr hn
    exact Sync_all_deployed hcoh hsync r hr hn
  · intro env cr b bout flags hcoh hsync r hhist hrc hmem
    obtain ⟨b1, hsrs, _, _, _⟩ := Sync_inv hsync
    rw [hsrs] at hhist
    have hn : r.name = getReleaseName env cr := (mem_history.mp hhist).2
    exact hrc (Sync_all_deployed hcoh hsync r hmem hn)
  · intro env cr b bout flags hsync r hhist hrc m hm
    obtain ⟨b1, hsrs, hgc, _, _⟩ := Sync_inv hsync
    rw [hsrs] at hhist
    have hm1 : faultFor b1 r.name r.version = some m := by
      rw [faultFor_congr r.name r.version (srs_faults hsrs)]
      exact hm
    exact gc_no_bad_fault _ b1 bout hgc r hhist hrc m hm1

/-- Backend for the C4 witness: a failed v1 and a deployed v2 under
the managed name. -/
def b4 : Backend :=
  ⟨[⟨"t1-0", 1, StatusCode.failed, "X", ""⟩,
    ⟨"t1-0", 2, StatusCode.deployed, "M", ""⟩], []⟩

/-- The C4 witness backend after `Sync`. -/
def b4' : Backend := ⟨[⟨"t1-0", 2, StatusCode.deployed, "M", ""⟩], []⟩

/-- Backend for the C4 witness's fault conjunct: a failed v1 whose
delete reports (coherently) a not-found failure. -/
def b5 : Backend :=
  ⟨[⟨"t1-0", 1, StatusCode.failed, "X", ""⟩],
   [("t1-0", 1, "release: not found")]⟩

theorem spec_C4_sync_gc_witness :
    (⟨"t1-0", 2, StatusCode.deployed, "M", ""⟩ : Release).code =
      StatusCode.deployed ∧
    ¬ (⟨"t1-0", 1, StatusCode.failed, "X", ""⟩ : Release) ∈ b4'.rels ∧
    containsSubstr "release: not found" "not found" = true := by
  have h := spec_C4_sync_gc
  refine ⟨?_, ?_, ?_⟩
  · exact h.1 env0 cr0 b4 b4'
      ⟨true, false, some ⟨"t1-0", 2, StatusCode.deployed, "M", ""⟩⟩
      (by intro f hf; cases hf) rfl
      ⟨"t1-0", 2, StatusCode.deployed, "M", ""⟩ (by decide) (by decide)
  · exact h.2.1 env0 cr0 b4 b4'
      ⟨true, false, some ⟨"t1-0", 2, StatusCode.deployed, "M", ""⟩⟩
      (by intro f hf; cases hf) rfl
      ⟨"t1-0", 1, StatusCode.failed, "X", ""⟩ (by decide) (by decide)
  · exact h.2.2 env0 cr0 b5 b5 ⟨false, false, none⟩ rfl
      ⟨"t1-0", 1, StatusCode.failed, "X", ""⟩ (by decide) (by decide)
      "release: not found" rfl

/-- The sentinel is gone after the reconciler's finalizer filter. -/
theorem contains_filter_ne (l : List String) :
    (l.filter (fun f => f ≠ finalizerName)).contains finalizerName = false := by
  cases hc : (l.filter (fun f => f ≠ finalizerName)).contains finalizerName with
  | false => rfl
  | true =>
      have hmem : finalizerName ∈ l.filter (fun f => f ≠ finalizerName) := by
        simpa using hc
      have := (List.mem_filter.mp hmem).2
      simp at this

/-- C5: `UninstallRelease` returns the `ErrNotFound` sentinel exactly
when the release history under the manager's name is empty; and when
reconciling a deleted CR carrying the sentinel finalizer, a reconcile
whose uninstall returns success or `ErrNotFound` removes the sentinel
from the finalizer list and persists the CR, reporting no error. -/
theorem spec_C5_uninstall_notfound :
    (∀ (env : REnv) (b : Backend) (name : String),
      UninstallRelease env b name = Except.error MErr.notFound ↔
        history b name = []) ∧
    (∀ (env : REnv) (o : CR) (b b' : Backend) (flags : SyncFlags),
      o.deleted = true →
      o.finalizers.contains finalizerName = true →
      Sync env o b = (b', Except.ok flags) →
      (∀ e, UninstallRelease env b' (getReleaseName env o) ≠
        Except.error (MErr.msg e)) →
      ∃ o', (Reconcile env (some o) b).cluster = some o' ∧
        o'.finalizers.contains finalizerName = false ∧
        (Reconcile env (some o) b).err = none ∧
        (Reconcile env (some o) b).actions = [MAction.uninstall]) := by
  constructor
  · intro env b name
    constructor
    · intro h
      unfold UninstallRelease at h
      by_cases he : (history b name).isEmpty = true
      · exact List.isEmpty_iff.mp he
      · rw [if_neg he] at h
        cases hun : tillerUninstall env b name with
        | error e => simp only [hun] at h; cases h
        | ok rb => simp only [hun] at h; cases h
    · intro h
      unfold UninstallRelease
      rw [h]
      rfl
  · intro env o b b' flags hdel hfin hsync hnomsg
    have hguard : (!o.deleted && !(o.finalizers.contains finalizerName)) = false := by
      rw [hdel]; rfl
    simp only [Reconcile, hguard, hsync, hdel, hfin, Bool.false_and,
      Bool.not_true, Bool.false_eq_true, if_false, if_true]
    cases hun : UninstallRelease env b' (getReleaseName env o) with
    | error me =>
        cases me with
        | notFound =>
            simp only [hun]
            refine ⟨_, rfl, contains_filter_ne _, ?_, ?_⟩ <;> first | rfl | trivial
        | msg e => exact absurd hun (hnomsg e)
    | ok rb =>
        obtain ⟨r0, b''⟩ := rb
        simp only [hun]
        refine ⟨_, rfl, contains_filter_ne _, ?_, ?_⟩ <;> first | rfl | trivial

/-- A deleted CR carrying the finalizer. -/
def crDel : CR :=
  ⟨"t1", "u1", "default", "spec1",
   ⟨none, ResourcePhase.noPhase, ConditionReason.unknown, ""⟩,
   [finalizerName], true⟩

theorem spec_C5_uninstall_notfound_witness :
    UninstallRelease env0 b0 "t1-0" = Except.error MErr.notFound ∧
    ∃ o', (Reconcile env0 (some crDel) b0).cluster = some o' ∧
      o'.finalizers.contains finalizerName = false ∧
      (Reconcile env0 (some crDel) b0).err = none ∧
      (Reconcile env0 (some crDel) b0).actions = [MAction.uninstall] := by
  refine ⟨(spec_C5_uninstall_notfound.1 env0 b0 "t1-0").mpr rfl, ?_⟩
  refine spec_C5_uninstall_notfound.2 env0 crDel b0 b0 ⟨false, false, none⟩
    rfl (by decide) rfl ?_
  intro e h
  have heq : UninstallRelease env0 b0 (getReleaseName env0 crDel) =
      Except.error MErr.notFound := rfl
  rw [heq] at h
  simp at h

/-! ### C6: no-op idempotence -/

/-- A stale DEPLOYED-coded status snapshot whose backend record was
dropped (here: the backend holds a FAILED record under the snapshot's
key, which the cleanup deletes) makes the second of two consecutive
reconciles with identical spec and chart re-insert the snapshot,
report an update as required, and grow the history. -/
def rStat : Release := ⟨"cr-0", 5, StatusCode.deployed, "R", ""⟩

/-- The counterexample CR: live, finalized, spec "s", carrying the
stale snapshot `rStat`. -/
def crX : CR :=
  ⟨"cr", "u", "d", "s",
   ⟨some rStat, ResourcePhase.noPhase, ConditionReason.unknown, ""⟩,
   [finalizerName], false⟩

/-- The counterexample backend: a FAILED record under the snapshot's
key and a DEPLOYED v3 whose manifest matches the render. -/
def bX : Backend :=
  ⟨[⟨"cr-0", 5, StatusCode.failed, "X", ""⟩,
    ⟨"cr-0", 3, StatusCode.deployed, "M", ""⟩], []⟩

theorem spec_C6_counterexample :
    (Reconcile env0 (some crX) bX).err = none ∧
    (Reconcile env0 (some crX) bX).cluster = some crX ∧
    (Sync env0 crX (Reconcile env0 (some crX) bX).backend).2 =
      Except.ok ⟨true, true, some rStat⟩ ∧
    (Reconcile env0 (Reconcile env0 (some crX) bX).cluster
        (Reconcile env0 (some crX) bX).backend).err = none ∧
    (history (Reconcile env0 (Reconcile env0 (some crX) bX).cluster
        (Reconcile env0 (some crX) bX).backend).backend "cr-0").length = 3 ∧
    (history (Reconcile env0 (some crX) bX).backend "cr-0").length = 1 :=
  ⟨rfl, rfl, rfl, rfl, rfl, rfl⟩

/-- Inversion of a successful install: the new release and the
appended backend. -/
theorem tillerInstall_ok {env : REnv} {b : Backend} {name spec : String}
    {rel : Release} {b'' : Backend}
    (h : tillerInstall env b name spec = Except.ok (rel, b'')) :
    rel = ⟨name, maxVersion b name + 1, StatusCode.deployed,
      env.render spec, ""⟩ ∧
    b'' = { rels := b.rels ++ [rel], deleteFaults := b.deleteFaults } := by
  unfold tillerInstall at h
  cases hie : env.installErr with
  | some e => simp only [hie] at h; cases h
  | none =>
      simp only [hie] at h
      cases h
      exact ⟨rfl, rfl⟩

/-- Inversion of a successful update: the new release, the superseding
map, and the appended backend. -/
theorem tillerUpdate_ok {env : REnv} {b : Backend} {name spec : String}
    {rel : Release} {b'' : Backend}
    (h : tillerUpdate env b name spec = Except.ok (rel, b'')) :
    rel = ⟨name, maxVersion b name + 1, StatusCode.deployed,
      env.render spec, ""⟩ ∧
    b'' = { rels := supersedeDeployed name b.rels ++ [rel],
            deleteFaults := b.deleteFaults } := by
  unfold tillerUpdate at h
  cases hue : env.updateErr with
  | some e => simp only [hue] at h; cases h
  | none =>
      simp only [hue] at h
      cases h
      exact ⟨rfl, rfl⟩

/-- Inversion of a live reconcile that returned no error: the Sync
succeeded and exactly one dispatch branch ran, determining the
persisted CR and backend. -/
theorem Reconcile_live_inv (env : REnv) (cr : CR) (b : Backend)
    (hok : (Reconcile env (some cr) b).err = none)
    (hdel : cr.deleted = false)
    (hfin : cr.finalizers.contains finalizerName = true) :
    ∃ b1r flags1, Sync env cr b = (b1r, Except.ok flags1) ∧
      ((flags1.isInstalled = false ∧
        ∃ rel b'', tillerInstall env b1r (getReleaseName env cr) cr.specVals =
            Except.ok (rel, b'') ∧
          (Reconcile env (some cr) b).backend = b'' ∧
          (Reconcile env (some cr) b).cluster =
            some { cr with status := (setPhase (setRelease cr.status (some rel))
              ResourcePhase.applied ConditionReason.applySuccessful rel.notes) }) ∨
       (flags1.isInstalled = true ∧ flags1.isUpdateRequired = true ∧
        ∃ rel b'', tillerUpdate env b1r (getReleaseName env cr) cr.specVals =
            Except.ok (rel, b'') ∧
          (Reconcile env (some cr) b).backend = b'' ∧
          (Reconcile env (some cr) b).cluster =
            some { cr with status := (setPhase (setRelease cr.status (some rel))
              ResourcePhase.applied ConditionReason.applySuccessful rel.notes) }) ∨
       (flags1.isInstalled = true ∧ flags1.isUpdateRequired = false ∧
        (Reconcile env (some cr) b).backend = b1r ∧
        (Reconcile env (some cr) b).cluster = some cr)) := by
  have hguard : (!cr.deleted && !(cr.finalizers.contains finalizerName)) = false := by
    rw [hdel, hfin]; rfl
  rcases hsync : Sync env cr b with ⟨b1r, res⟩
  have hrec : Reconcile env (some cr) b =
      (match (b1r, res) with
       | (b', Except.error e) =>
          (⟨some cr, b', some e, false, [], none⟩ : ROut)
       | (b', Except.ok flags) =>
          if !flags.isInstalled then
            match tillerInstall env b' (getReleaseName env cr) cr.specVals with
            | Except.error e => ⟨some cr, b', some e, false, [MAction.install], none⟩
            | Except.ok (installedRelease, b'') =>
                let status' := setPhase (setRelease cr.status (some installedRelease))
                  ResourcePhase.applied ConditionReason.applySuccessful
                  installedRelease.notes
                ⟨some { cr with status := status' }, b'', none, true,
                  [MAction.install], some status'⟩
          else if flags.isUpdateRequired then
            match tillerUpdate env b' (getReleaseName env cr) cr.specVals with
            | Except.error e => ⟨some cr, b', some e, false, [MAction.update], none⟩
            | Except.ok (updatedRelease, b'') =>
                let status' := setPhase (setRelease cr.status (some updatedRelease))
                  ResourcePhase.applied ConditionReason.applySuccessful
                  updatedRelease.notes
                ⟨some { cr with status := status' }, b'', none, true,
                  [MAction.update], some status'⟩
          else
            match env.reconcileErr with
            | some e => ⟨some cr, b', some e, false, [MAction.reconcileRel], none⟩
            | none => ⟨some cr, b', none, true, [MAction.reconcileRel], none⟩) := by
    simp only [Reconcile, hsync, hdel, Bool.not_false, Bool.true_and, hfin,
      Bool.not_true, Bool.false_eq_true, if_false]
  cases res with
  | error e =>
      rw [hrec] at hok
      cases hok
  | ok flags1 =>
      refine ⟨b1r, flags1, rfl, ?_⟩
      cases hInst : flags1.isInstalled with
      | false =>
          cases htill : tillerInstall env b1r (getReleaseName env cr) cr.specVals with
          | error e =>
              rw [hrec] at hok
              simp only [hInst, Bool.not_false, if_true, htill] at hok
              cases hok
          | ok rb =>
              obtain ⟨rel, b''⟩ := rb
              refine Or.inl ⟨rfl, rel, b'', rfl, ?_, ?_⟩
              · rw [hrec]
                simp only [hInst, Bool.not_false, if_true, htill]
              · rw [hrec]
                simp only [hInst, Bool.not_false, if_true, htill]
      | true =>
          cases hUpd : flags1.isUpdateRequired with
          | true =>
              cases htill : tillerUpdate env b1r (getReleaseName env cr) cr.specVals with
              | error e =>
                  rw [hrec] at hok
                  simp only [hInst, hUpd, Bool.not_true, Bool.false_eq_true,
                    if_false, if_true, htill] at hok
                  cases hok
              | ok rb =>
                  obtain ⟨rel, b''⟩ := rb
                  refine Or.inr (Or.inl ⟨rfl, rfl, rel, b'', rfl, ?_, ?_⟩)
                  · rw [hrec]
                    simp only [hInst, hUpd, Bool.not_true, Bool.false_eq_true,
                      if_false, if_true, htill]
                  · rw [hrec]
                    simp only [hInst, hUpd, Bool.not_true, Bool.false_eq_true,
                      if_false, if_true, htill]
          | false =>
              cases hre : env.reconcileErr with
              | some e =>
                  rw [hrec] at hok
                  simp only [hInst, hUpd, Bool.not_true, Bool.false_eq_true,
                    if_false, hre] at hok
                  cases hok
              | none =>
                  refine Or.inr (Or.inr ⟨rfl, rfl, ?_, ?_⟩)
                  · rw [hrec]
                    simp only [hInst, hUpd, Bool.not_true, Bool.false_eq_true,
                      if_false, hre]
                  · rw [hrec]
                    simp only [hInst, hUpd, Bool.not_true, Bool.false_eq_true,
                      if_false, hre]

/-- A finer inversion of `syncReleaseStatus` without error: no
snapshot, or the snapshot's key found, or the snapshot re-created
under its absent key. -/
theorem srs_cases {st : HelmAppStatus} {b b1 : Backend}
    (h : syncReleaseStatus st b = (b1, none)) :
    (st.release = none ∧ b1 = b) ∨
    (∃ r x, st.release = some r ∧
      b.rels.find? (fun y => y.name == r.name && y.version == r.version) =
        some x ∧ b1 = b) ∨
    (∃ r, st.release = some r ∧
      b.rels.find? (fun y => y.name == r.name && y.version == r.version) =
        none ∧
      b1 = { rels := b.rels ++ [r], deleteFaults := b.deleteFaults }) := by
  unfold syncReleaseStatus at h
  cases hrel : st.release with
  | none => simp only [hrel] at h; cases h; exact Or.inl ⟨rfl, rfl⟩
  | some r =>
      simp only [hrel] at h
      cases hget : storageGet b r.name r.version with
      | ok x =>
          simp only [hget] at h
          cases h
          unfold storageGet at hget
          cases hfind : b.rels.find?
              (fun y => y.name == r.name && y.version == r.version) with
          | some y => exact Or.inr (Or.inl ⟨r, y, rfl, hfind, rfl⟩)
          | none => rw [hfind] at hget; cases hget
      | error e =>
          simp only [hget] at h
          obtain ⟨he, hfind⟩ := storageGet_err hget
          have hnf : notFoundErr e = true := by rw [he]; exact notFound_msg
          rw [hnf, if_pos rfl] at h
          have hany : b.rels.any
              (fun x => x.name == r.name && x.version == r.version) = false := by
            rw [List.any_eq_false]
            intro x hx
            have := List.find?_eq_none.mp hfind x hx
            simpa using this
          unfold storageCreate at h
          rw [hany] at h
          simp only [Bool.false_eq_true, if_false] at h
          cases h
          exact Or.inr (Or.inr ⟨r, rfl, hfind, rfl⟩)

/-- `syncReleaseStatus` is the identity when the snapshot is already
stored. -/
theorem srs_of_mem {st : HelmAppStatus} {b : Backend} {r : Release}
    (hrel : st.release = some r) (hmem : r ∈ b.rels) :
    syncReleaseStatus st b = (b, none) := by
  obtain ⟨x, hget⟩ := storageGet_ok_of_mem hmem
  exact srs_of_get_ok hrel hget

/-- `find?` skips a prefix with no match. -/
theorem find_append_none {p : Release → Bool} :
    ∀ {l1 : List Release} (l2 : List Release),
    l1.find? p = none → (l1 ++ l2).find? p = l2.find? p := by
  intro l1
  induction l1 with
  | nil => intro l2 _; rfl
  | cons hd t ih =>
      intro l2 h
      cases hp : p hd with
      | true =>
          rw [List.find?_cons_of_pos _ hp] at h
          cases h
      | false =>
          have hp' : ¬ p hd = true := by rw [hp]; exact Bool.false_ne_true
          rw [List.find?_cons_of_neg _ hp'] at h
          rw [List.cons_append, List.find?_cons_of_neg _ hp']
          exact ih l2 h

/-- A key filter over records none of which match is the identity. -/
theorem filter_key_of_find_none {l : List Release} {p : Release → Bool}
    (h : l.find? p = none) : l.filter (fun x => !(p x)) = l := by
  rw [List.filter_eq_self]
  intro x hx
  cases hp : p x with
  | true => exact absurd hp (List.find?_eq_none.mp h x hx)
  | false => rfl

/-- A superseding rewrite preserves names and versions. -/
theorem supersede_mem {name : String} {l : List Release} {x : Release}
    (hx : x ∈ supersedeDeployed name l) :
    ∃ r, r ∈ l ∧ x.name = r.name ∧ x.version = r.version := by
  unfold supersedeDeployed at hx
  obtain ⟨r, hr, heq⟩ := List.mem_map.mp hx
  by_cases hc : (r.name == name && r.code == StatusCode.deployed) = true
  · rw [if_pos hc] at heq
    subst heq
    exact ⟨r, hr, rfl, rfl⟩
  · rw [if_neg hc] at heq
    subst heq
    exact ⟨r, hr, rfl, rfl⟩

/-- No record of a superseded history is still DEPLOYED under the
superseded name. -/
theorem supersede_no_deployed {name : String} {l : List Release} {x : Release}
    (hx : x ∈ supersedeDeployed name l) (hn : x.name = name)
    (hc : x.code = StatusCode.deployed) : False := by
  unfold supersedeDeployed at hx
  obtain ⟨r, hr, heq⟩ := List.mem_map.mp hx
  by_cases hcond : (r.name == name && r.code == StatusCode.deployed) = true
  · rw [if_pos hcond] at heq
    subst heq
    cases hc
  · rw [if_neg hcond] at heq
    subst heq
    apply hcond
    rw [hn, hc]
    simp

/-- A history with no deployed version yet all versions deployed is
empty. -/
theorem history_nil_of_deployed_none {b : Backend} {n : String}
    (hall : ∀ r ∈ b.rels, r.name = n → r.code = StatusCode.deployed)
    (hnone : storageDeployed b n = none) : history b n = [] := by
  cases hh : history b n with
  | nil => rfl
  | cons x xs =>
      exfalso
      have hx : x ∈ history b n := by rw [hh]; exact List.mem_cons_self _ _
      obtain ⟨hxb, hxn⟩ := mem_history.mp hx
      obtain ⟨y, hy⟩ := storageDeployed_isSome hxb hxn (hall x hxb hxn)
      rw [hnone] at hy
      cases hy

/-- Shrinking the record list shrinks every history. -/
theorem history_length_le_of_sublist {b b' : Backend} {n : String}
    (h : b'.rels.Sublist b.rels) :
    (history b' n).length ≤ (history b n).length :=
  List.Sublist.length_le (h.filter _)

/-- After a fresh install (empty history, one new DEPLOYED record
whose manifest is the current render, recorded in the status
snapshot), a successful second `Sync` reports installed, no update
required, and an unchanged history length. -/
theorem sync_after_install {env : REnv} {cr1 : CR} {b1r : Backend}
    {rel : Release} {b2 : Backend} {flags2 : SyncFlags}
    (hsync2 : Sync env cr1
      { rels := b1r.rels ++ [rel], deleteFaults := b1r.deleteFaults } =
      (b2, Except.ok flags2))
    (hrel : cr1.status.release = some rel)
    (hreln : rel.name = getReleaseName env cr1)
    (hrelc : rel.code = StatusCode.deployed)
    (hrelm : rel.manifest = env.render cr1.specVals)
    (hhist : history b1r (getReleaseName env cr1) = []) :
    flags2.isInstalled = true ∧ flags2.isUpdateRequired = false ∧
    (history b2 (getReleaseName env cr1)).length ≤
      (history { rels := b1r.rels ++ [rel], deleteFaults := b1r.deleteFaults }
        (getReleaseName env cr1)).length := by
  obtain ⟨bs2, hsrs2, hgc2, hchart2, hdisj2⟩ := Sync_inv hsync2
  have hmem : rel ∈ ({ rels := b1r.rels ++ [rel], deleteFaults := b1r.deleteFaults } : Backend).rels :=
    List.mem_append.mpr (Or.inr (List.mem_singleton.mpr rfl))
  have hsrsc := srs_of_mem hrel hmem
  rw [hsrsc] at hsrs2
  injection hsrs2 with hbs hnone
  subst hbs
  have hh2 : history ({ rels := b1r.rels ++ [rel], deleteFaults := b1r.deleteFaults } : Backend) (getReleaseName env cr1) = [rel] := by
    show (b1r.rels ++ [rel]).filter
      (fun r => r.name == getReleaseName env cr1) = [rel]
    rw [List.filter_append]
    have h1 : b1r.rels.filter (fun r => r.name == getReleaseName env cr1) =
        [] := hhist
    have h2 : (rel.name == getReleaseName env cr1) = true := by
      rw [hreln]; simp
    rw [h1, List.nil_append]
    simp [List.filter_cons, h2]
  rw [hh2] at hgc2
  have hgcc := gc_noop [rel] ({ rels := b1r.rels ++ [rel], deleteFaults := b1r.deleteFaults } : Backend) (by
    intro x hx
    rw [List.mem_singleton] at hx
    subst hx
    exact hrelc)
  rw [hgcc] at hgc2
  injection hgc2 with hb2 hnone2
  subst hb2
  have hdepc : storageDeployed ({ rels := b1r.rels ++ [rel], deleteFaults := b1r.deleteFaults } : Backend) (getReleaseName env cr1) = some rel := by
    unfold storageDeployed
    rw [hh2]
    have h2c : (rel.code == StatusCode.deployed) = true := by
      rw [hrelc]; rfl
    simp [List.filter_cons, h2c, pickMax]
  rcases hdisj2 with ⟨hdn, hfl⟩ | ⟨dep, hds, hcand, hflags⟩
  · rw [hdepc] at hdn; cases hdn
  · rw [hdepc] at hds
    injection hds with hd
    subst hd
    refine ⟨by rw [hflags], ?_, le_refl _⟩
    rw [hflags]
    show (rel.manifest != env.render cr1.specVals) = false
    rw [hrelm]
    exact bne_self_eq_false _

/-- After an update (every record under the name superseded, one new
DEPLOYED record of fresh version whose manifest is the current render,
recorded in the status snapshot), a successful second `Sync` reports
installed, no update required, and a history no longer than before. -/
theorem sync_after_update {env : REnv} {cr1 : CR} {b1r : Backend}
    {rel : Release} {b2 : Backend} {flags2 : SyncFlags}
    (hsync2 : Sync env cr1
      { rels := supersedeDeployed (getReleaseName env cr1) b1r.rels ++ [rel],
        deleteFaults := b1r.deleteFaults } = (b2, Except.ok flags2))
    (hrel : cr1.status.release = some rel)
    (hreln : rel.name = getReleaseName env cr1)
    (hrelc : rel.code = StatusCode.deployed)
    (hrelm : rel.manifest = env.render cr1.specVals)
    (hrelv : rel.version = maxVersion b1r (getReleaseName env cr1) + 1) :
    flags2.isInstalled = true ∧ flags2.isUpdateRequired = false ∧
    (history b2 (getReleaseName env cr1)).length ≤
      (history { rels := supersedeDeployed (getReleaseName env cr1) b1r.rels
          ++ [rel], deleteFaults := b1r.deleteFaults }
        (getReleaseName env cr1)).length := by
  obtain ⟨bs2, hsrs2, hgc2, hchart2, hdisj2⟩ := Sync_inv hsync2
  have hmem : rel ∈ ({ rels := supersedeDeployed (getReleaseName env cr1) b1r.rels ++ [rel], deleteFaults := b1r.deleteFaults } : Backend).rels :=
    List.mem_append.mpr (Or.inr (List.mem_singleton.mpr rfl))
  have hsrsc := srs_of_mem hrel hmem
  rw [hsrsc] at hsrs2
  injection hsrs2 with hbs hnone
  subst hbs
  have hrelb2 : rel ∈ b2.rels := by
    refine gc_keeps _ _ _ _ hgc2 rel hmem ?_
    intro y hy hyc hykey
    obtain ⟨hyb, hyn⟩ := mem_history.mp hy
    rcases List.mem_append.mp hyb with hsup | hsing
    · obtain ⟨z, hz, hzn, hzv⟩ := supersede_mem hsup
      have hzle : z.version ≤ maxVersion b1r (getReleaseName env cr1) :=
        version_le_maxVersion hz (hzn.symm.trans hyn)
      have hv : maxVersion b1r (getReleaseName env cr1) + 1 = y.version := by
        rw [← hrelv]; exact hykey.2
      have hle : maxVersion b1r (getReleaseName env cr1) + 1 ≤
          maxVersion b1r (getReleaseName env cr1) := by
        rw [hv, hzv]; exact hzle
      exact Nat.not_succ_le_self _ hle
    · rw [List.mem_singleton] at hsing
      subst hsing
      exact hyc hrelc
  rcases hdisj2 with ⟨hdn, hfl⟩ | ⟨dep, hds, hcand, hflags⟩
  · obtain ⟨w, hw⟩ := storageDeployed_isSome hrelb2 hreln hrelc
    rw [hdn] at hw; cases hw
  · obtain ⟨hdb, hdn2, hdc⟩ := storageDeployed_spec hds
    have hdb2 : dep ∈ ({ rels := supersedeDeployed (getReleaseName env cr1) b1r.rels ++ [rel], deleteFaults := b1r.deleteFaults } : Backend).rels :=
      (gc_sublist _ _ _ _ hgc2).1.subset hdb
    rcases List.mem_append.mp hdb2 with hsup | hsing
    · exact (supersede_no_deployed hsup hdn2 hdc).elim
    · rw [List.mem_singleton] at hsing
      subst hsing
      refine ⟨by rw [hflags], ?_, ?_⟩
      · rw [hflags]
        show (dep.manifest != env.render cr1.specVals) = false
        rw [hrelm]
        exact bne_self_eq_false _
      · exact history_length_le_of_sublist (gc_sublist _ _ _ _ hgc2).1

/-- After a drift-repair reconcile (backend unchanged by the dispatch:
all records under the name DEPLOYED, a deployed release present), a
successful second `Sync` of the same CR reports installed, an update
flag equal to the first comparison, and a history under the name no
longer than before — provided the original backend had unique keys,
coherent delete faults, and a status snapshot coherent with it. -/
theorem sync_after_reconcile {env : REnv} {cr : CR} {b bs b1r : Backend}
    (hcoh : CoherentFaults b) (huniq : KeysUnique b)
    (hstat : StatusCoherent cr b)
    (hsrs1 : syncReleaseStatus cr.status b = (bs, none))
    (hgc1 : gcNonDeployed bs (history bs (getReleaseName env cr)) =
      (b1r, none))
    (halldep : ∀ r ∈ b1r.rels, r.name = getReleaseName env cr →
      r.code = StatusCode.deployed)
    {dep1 : Release}
    (hdep1 : storageDeployed b1r (getReleaseName env cr) = some dep1)
    {b2 : Backend} {flags2 : SyncFlags}
    (hsync2 : Sync env cr b1r = (b2, Except.ok flags2)) :
    flags2.isInstalled = true ∧
    flags2.isUpdateRequired = (dep1.manifest != env.render cr.specVals) ∧
    (history b2 (getReleaseName env cr)).length ≤
      (history b1r (getReleaseName env cr)).length := by
  have hf1 : b1r.deleteFaults = b.deleteFaults := by
    rw [(gc_sublist _ _ _ _ hgc1).2, srs_faults hsrs1]
  have hcoh1 : CoherentFaults b1r := coherent_of_faults_eq hf1.symm hcoh
  have hwl : ∀ x ∈ history b1r (getReleaseName env cr),
      x.code = StatusCode.deployed := by
    intro x hx
    obtain ⟨hxb, hxn⟩ := mem_history.mp hx
    exact halldep x hxb hxn
  obtain ⟨bs2, hsrs2, hgc2, hchart2, hdisj2⟩ := Sync_inv hsync2
  rcases srs_cases hsrs2 with ⟨hn2, hbs2⟩ | ⟨r, x, hrel2, hfind2, hbs2⟩ |
    ⟨r, hrel2, hfind2, hbs2⟩
  · rw [hbs2] at hgc2
    have hgcc := gc_noop (history b1r (getReleaseName env cr)) b1r hwl
    rw [hgcc] at hgc2
    injection hgc2 with hb2 hnone2
    subst hb2
    rcases hdisj2 with ⟨hdn, hfl⟩ | ⟨dep, hds, hcand, hflags⟩
    · rw [hdep1] at hdn; cases hdn
    · rw [hdep1] at hds
      injection hds with hd
      subst hd
      exact ⟨by rw [hflags], by rw [hflags], le_refl _⟩
  · rw [hbs2] at hgc2
    have hgcc := gc_noop (history b1r (getReleaseName env cr)) b1r hwl
    rw [hgcc] at hgc2
    injection hgc2 with hb2 hnone2
    subst hb2
    rcases hdisj2 with ⟨hdn, hfl⟩ | ⟨dep, hds, hcand, hflags⟩
    · rw [hdep1] at hdn; cases hdn
    · rw [hdep1] at hds
      injection hds with hd
      subst hd
      exact ⟨by rw [hflags], by rw [hflags], le_refl _⟩
  · subst hbs2
    have hrc : r.code ≠ StatusCode.deployed := by
      intro hrdep
      rcases srs_cases hsrs1 with ⟨hn1, hbs1⟩ | ⟨r0, x0, hrel0, hfind0, hbs1⟩ |
        ⟨r0, hrel0, hfind0, hbs1⟩
      · rw [hrel2] at hn1; cases hn1
      · rw [hrel2] at hrel0
        injection hrel0 with hr0
        subst hr0
        rw [hbs1] at hgc1
        have hx0mem : x0 ∈ b.rels := List.mem_of_find?_eq_some hfind0
        have hx0p := List.find?_some hfind0
        rw [Bool.and_eq_true, beq_iff_eq, beq_iff_eq] at hx0p
        have hx0n : x0.name = r.name := hx0p.1
        have hx0v : x0.version = r.version := hx0p.2
        have hx0dep : x0.code = StatusCode.deployed :=
          hstat r x0 hrel2 hrdep hx0mem hx0n hx0v
        have hx0b1r : x0 ∈ b1r.rels := by
          refine gc_keeps _ _ _ _ hgc1 x0 hx0mem ?_
          intro y hy hyc hykey
          obtain ⟨hyb, hyn2⟩ := mem_history.mp hy
          have hxy : x0 = y := huniq x0 y hx0mem hyb hykey.1 hykey.2
          exact hyc (hxy ▸ hx0dep)
        have hcontra := List.find?_eq_none.mp hfind2 x0 hx0b1r
        exact hcontra (by simp [hx0n, hx0v])
      · rw [hrel2] at hrel0
        injection hrel0 with hr0
        subst hr0
        subst hbs1
        have hrmem : r ∈ ({ rels := b.rels ++ [r], deleteFaults := b.deleteFaults } : Backend).rels :=
          List.mem_append.mpr (Or.inr (List.mem_singleton.mpr rfl))
        have hrb1r : r ∈ b1r.rels := by
          refine gc_keeps _ _ _ _ hgc1 r hrmem ?_
          intro y hy hyc hykey
          obtain ⟨hyb, hyn2⟩ := mem_history.mp hy
          rcases List.mem_append.mp hyb with hyb' | hyr
          · have hny := List.find?_eq_none.mp hfind0 y hyb'
            have h1 : y.name = r.name := hykey.1.symm
            have h2 : y.version = r.version := hykey.2.symm
            exact hny (by simp [h1, h2])
          · rw [List.mem_singleton] at hyr
            subst hyr
            exact hyc hrdep
        have hcontra := List.find?_eq_none.mp hfind2 r hrb1r
        exact hcontra (by simp)
    by_cases hrname : r.name = getReleaseName env cr
    · cases hfr : faultFor b1r r.name r.version with
      | some m =>
          exfalso
          have hbad := coherent_faultFor hcoh1 hfr
          have hrwl : r ∈ history ({ rels := b1r.rels ++ [r], deleteFaults := b1r.deleteFaults } : Backend) (getReleaseName env cr) := by
            apply mem_history.mpr
            exact ⟨List.mem_append.mpr (Or.inr (List.mem_singleton.mpr rfl)),
              hrname⟩
          have hfr2 : faultFor ({ rels := b1r.rels ++ [r], deleteFaults := b1r.deleteFaults } : Backend) r.name r.version = some m :=
            (faultFor_congr r.name r.version rfl).trans hfr
          have hnfm := gc_no_bad_fault _ _ _ hgc2 r hrwl hrc m hfr2
          have h3 : containsSubstr m "not found" = true := hnfm
          rw [hbad] at h3
          cases h3
      | none =>
          have hh2 : history ({ rels := b1r.rels ++ [r], deleteFaults := b1r.deleteFaults } : Backend) (getReleaseName env cr) = history b1r (getReleaseName env cr) ++ [r] := by
            show (b1r.rels ++ [r]).filter
                (fun z => z.name == getReleaseName env cr) =
              b1r.rels.filter (fun z => z.name == getReleaseName env cr) ++ [r]
            rw [List.filter_append]
            have h2 : (r.name == getReleaseName env cr) = true := by
              rw [hrname]; simp
            simp [List.filter_cons, h2]
          rw [hh2] at hgc2
          rw [gc_skip_deployed (history b1r (getReleaseName env cr)) [r] _
            hwl] at hgc2
          have hfrb : faultFor ({ rels := b1r.rels ++ [r], deleteFaults := b1r.deleteFaults } : Backend) r.name r.version = none :=
            (faultFor_congr r.name r.version rfl).trans hfr
          have hpr : ((r.name == r.name && r.version == r.version)) = true := by
            simp
          have hfindr : (b1r.rels ++ [r]).find?
              (fun y => y.name == r.name && y.version == r.version) =
              some r := by
            rw [find_append_none [r] hfind2]
            simp [List.find?_cons, hpr]
          have hfil : (b1r.rels ++ [r]).filter
              (fun x => !(x.name == r.name && x.version == r.version)) =
              b1r.rels := by
            rw [List.filter_append, filter_key_of_find_none hfind2]
            simp [List.filter_cons, hpr]
          have hdel : storageDelete ({ rels := b1r.rels ++ [r], deleteFaults := b1r.deleteFaults } : Backend) r.name r.version = Except.ok (r, b1r) := by
            unfold storageDelete
            simp only [hfrb, hfindr]
            rw [hfil]
          have hgcr : gcNonDeployed ({ rels := b1r.rels ++ [r], deleteFaults := b1r.deleteFaults } : Backend) [r] = (b1r, none) := by
            simp only [gcNonDeployed, if_neg hrc, hdel]
          rw [hgcr] at hgc2
          injection hgc2 with hb2 hnone2
          subst hb2
          rcases hdisj2 with ⟨hdn, hfl⟩ | ⟨dep, hds, hcand, hflags⟩
          · rw [hdep1] at hdn; cases hdn
          · rw [hdep1] at hds
            injection hds with hd
            subst hd
            exact ⟨by rw [hflags], by rw [hflags], le_refl _⟩
    · have hh2 : history ({ rels := b1r.rels ++ [r], deleteFaults := b1r.deleteFaults } : Backend) (getReleaseName env cr) = history b1r (getReleaseName env cr) := by
        show (b1r.rels ++ [r]).filter
            (fun z => z.name == getReleaseName env cr) =
          b1r.rels.filter (fun z => z.name == getReleaseName env cr)
        rw [List.filter_append]
        have h2 : (r.name == getReleaseName env cr) = false := by
          cases hb2 : (r.name == getReleaseName env cr) with
          | false => rfl
          | true => exact absurd (by simpa using hb2) hrname
        simp [List.filter_cons, h2]
      rw [hh2] at hgc2
      have hgcc := gc_noop (history b1r (getReleaseName env cr))
        ({ rels := b1r.rels ++ [r], deleteFaults := b1r.deleteFaults } : Backend) hwl
      rw [hgcc] at hgc2
      injection hgc2 with hb2 hnone2
      subst hb2
      have hdepc : storageDeployed ({ rels := b1r.rels ++ [r], deleteFaults := b1r.deleteFaults } : Backend) (getReleaseName env cr) = some dep1 := by
        unfold storageDeployed
        rw [hh2]
        exact hdep1
      rcases hdisj2 with ⟨hdn, hfl⟩ | ⟨dep, hds, hcand, hflags⟩
      · rw [hdepc] at hdn; cases hdn
      · rw [hdepc] at hds
        injection hds with hd
        subst hd
        refine ⟨by rw [hflags], by rw [hflags], ?_⟩
        rw [hh2]

/-- C6 (amended): two consecutive reconciles of the same live,
finalized CR with an identical spec and an unchanged chart are a
no-op, provided the storage backend starts with coherent injected
delete faults (no fault claims "not found"), at most one record per
(name, version) key, and a status snapshot whose DEPLOYED release
agrees in status code with the stored record. Then, after a first
reconcile without error, any successful `Sync` of the persisted CR
against the resulting backend reports `isInstalled` and
`isUpdateRequired = false`, and a second reconcile without error does
not grow the release history under the manager's release name. -/
theorem spec_C6_noop_idempotent (env : REnv) (cr : CR) (b : Backend)
    (hcoh : CoherentFaults b) (huniq : KeysUnique b)
    (hstat : StatusCoherent cr b)
    (hdel : cr.deleted = false)
    (hfin : cr.finalizers.contains finalizerName = true)
    (hok1 : (Reconcile env (some cr) b).err = none) :
    ∃ cr1, (Reconcile env (some cr) b).cluster = some cr1 ∧
      (∀ b2 flags2,
        Sync env cr1 (Reconcile env (some cr) b).backend =
          (b2, Except.ok flags2) →
        flags2.isInstalled = true ∧ flags2.isUpdateRequired = false) ∧
      ((Reconcile env (some cr1) (Reconcile env (some cr) b).backend).err =
          none →
        (history (Reconcile env (some cr1)
            (Reconcile env (some cr) b).backend).backend
          (getReleaseName env cr)).length ≤
        (history (Reconcile env (some cr) b).backend
          (getReleaseName env cr)).length) := by
  obtain ⟨b1r, flags1, hsync1, hdisp⟩ := Reconcile_live_inv env cr b hok1 hdel hfin
  obtain ⟨bs, hsrs1, hgc1, hchart1, hdep1disj⟩ := Sync_inv hsync1
  have halldep : ∀ r ∈ b1r.rels, r.name = getReleaseName env cr →
      r.code = StatusCode.deployed := Sync_all_deployed hcoh hsync1
  rcases hdisp with ⟨hInst, rel, b'', htill, hback, hclus⟩ |
    ⟨hInst, hUpd, rel, b'', htill, hback, hclus⟩ |
    ⟨hInst, hUpd, hback, hclus⟩
  · obtain ⟨hrel, hb''⟩ := tillerInstall_ok htill
    subst hrel
    subst hb''
    have hdep1none : storageDeployed b1r (getReleaseName env cr) = none := by
      rcases hdep1disj with ⟨hdn, hfl⟩ | ⟨dep, hds, hcand, hflags⟩
      · exact hdn
      · rw [hflags] at hInst; cases hInst
    have hhist1 : history b1r (getReleaseName env cr) = [] :=
      history_nil_of_deployed_none halldep hdep1none
    refine ⟨_, hclus, ?_, ?_⟩
    · rw [hback]
      intro b2 flags2 hsync2
      have h := sync_after_install hsync2 rfl rfl rfl rfl hhist1
      exact ⟨h.1, h.2.1⟩
    · rw [hback]
      intro hok2
      obtain ⟨b2r, flags2, hsync2, hdisp2⟩ :=
        Reconcile_live_inv env _ _ hok2 hdel hfin
      have h := sync_after_install hsync2 rfl rfl rfl rfl hhist1
      rcases hdisp2 with ⟨hI2, rel2, bx, htill2, hbx, hcx⟩ |
        ⟨hI2, hU2, rel2, bx, htill2, hbx, hcx⟩ | ⟨hI2, hU2, hback2, hclus2⟩
      · rw [h.1] at hI2; cases hI2
      · rw [h.2.1] at hU2; cases hU2
      · rw [hback2]
        exact h.2.2
  · obtain ⟨hrel, hb''⟩ := tillerUpdate_ok htill
    subst hrel
    subst hb''
    refine ⟨_, hclus, ?_, ?_⟩
    · rw [hback]
      intro b2 flags2 hsync2
      have h := sync_after_update hsync2 rfl rfl rfl rfl rfl
      exact ⟨h.1, h.2.1⟩
    · rw [hback]
      intro hok2
      obtain ⟨b2r, flags2, hsync2, hdisp2⟩ :=
        Reconcile_live_inv env _ _ hok2 hdel hfin
      have h := sync_after_update hsync2 rfl rfl rfl rfl rfl
      rcases hdisp2 with ⟨hI2, rel2, bx, htill2, hbx, hcx⟩ |
        ⟨hI2, hU2, rel2, bx, htill2, hbx, hcx⟩ | ⟨hI2, hU2, hback2, hclus2⟩
      · rw [h.1] at hI2; cases hI2
      · rw [h.2.1] at hU2; cases hU2
      · rw [hback2]
        exact h.2.2
  · have hdep1some : ∃ dep1,
        storageDeployed b1r (getReleaseName env cr) = some dep1 ∧
        env.candidateErr = none ∧
        flags1 = ⟨true, dep1.manifest != env.render cr.specVals, some dep1⟩ := by
      rcases hdep1disj with ⟨hdn, hflags⟩ | h
      · rw [hflags] at hInst; cases hInst
      · exact h
    obtain ⟨dep1, hdep1, hcand1, hflags1⟩ := hdep1some
    have hUpd1 : (dep1.manifest != env.render cr.specVals) = false := by
      rw [hflags1] at hUpd
      exact hUpd
    refine ⟨cr, hclus, ?_, ?_⟩
    · rw [hback]
      intro b2 flags2 hsync2
      have h := sync_after_reconcile hcoh huniq hstat hsrs1 hgc1 halldep
        hdep1 hsync2
      exact ⟨h.1, by rw [h.2.1, hUpd1]⟩
    · rw [hback]
      intro hok2
      obtain ⟨b2r, flags2, hsync2, hdisp2⟩ :=
        Reconcile_live_inv env cr b1r hok2 hdel hfin
      have h := sync_after_reconcile hcoh huniq hstat hsrs1 hgc1 halldep
        hdep1 hsync2
      rcases hdisp2 with ⟨hI2, rel2, bx, htill2, hbx, hcx⟩ |
        ⟨hI2, hU2, rel2, bx, htill2, hbx, hcx⟩ | ⟨hI2, hU2, hback2, hclus2⟩
      · rw [h.1] at hI2; cases hI2
      · rw [h.2.1, hUpd1] at hU2; cases hU2
      · rw [hback2]
        exact h.2.2

theorem spec_C6_noop_idempotent_witness :
    ∃ cr1, (Reconcile env0 (some cr0) b0).cluster = some cr1 ∧
      (∀ b2 flags2,
        Sync env0 cr1 (Reconcile env0 (some cr0) b0).backend =
          (b2, Except.ok flags2) →
        flags2.isInstalled = true ∧ flags2.isUpdateRequired = false) ∧
      ((Reconcile env0 (some cr1) (Reconcile env0 (some cr0) b0).backend).err =
          none →
        (history (Reconcile env0 (some cr1)
            (Reconcile env0 (some cr0) b0).backend).backend
          (getReleaseName env0 cr0)).length ≤
        (history (Reconcile env0 (some cr0) b0).backend
          (getReleaseName env0 cr0)).length) :=
  spec_C6_noop_idempotent env0 cr0 b0
    (by intro f hf; cases hf)
    (by intro x y hx; cases hx)
    (by intro r x hrel hc hx; cases hx)
    rfl (by decide) rfl
